import Mathlib

/-!
Shallow embedding of the swsusp hibernation engine (kernel/power/swsusp.c).

Memory is modelled at page granularity: `Mem : Nat → Nat` maps a page-aligned
virtual address to the (abstracted) content of the whole page starting there;
`copy_page`/`rw_swap_page_sync` move whole pages, so no finer granularity is
observable in the code under verification.  The swap device is modelled as a
total map from device page index to a `DiskPage`, mirroring the source's
`union diskpage` overlay (a slot is interpreted as raw data, a pagedir page
with its trailing link, a suspend header with its trailing link, or the swap
header/marker page).  Fixed-width strings (`machine[8]`, `version[20]`, the
10-byte magic) are modelled as `List Char` with explicit `take` widths.
-/

set_option autoImplicit false
set_option linter.unusedVariables false

namespace Swsusp

/-- Bytes per physical page (`PAGE_SIZE`). -/
def PAGE_SIZE : Nat := 4096

/-- Extra pages kept free so that I/O during the write-out succeeds
(`#define PAGES_FOR_IO 512`). -/
def PAGES_FOR_IO : Nat := 512

def EPERM : Int := 1
def ENOENT : Int := 2
def EIO : Int := 5
def ENOMEM : Int := 12
def EFAULT : Int := 14
def EINVAL : Int := 22
def ENOSPC : Int := 28

/-- Outcome of a kernel routine: an ordinary (recoverable) error return code
such as `-EPERM`, or a fatal non-local halt (`BUG()` / `panic()`), which never
returns control to the caller. -/
inductive KErr where
  | errno : Int → KErr
  | bug : String → KErr
  deriving Repr, DecidableEq

/-- Result of a fallible kernel routine. -/
abbrev KRes (α : Type) := Except KErr α

def bugMsgDataSpace : String := "Not enough swapspace when writing data"
def bugMsgDataDev : String := "not enough swapspace on suspend device"
def bugMsgPgdirSpace : String := "Don't know how to recover"
def bugMsgPgdirDev : String := "Not enough swapspace for pagedir on suspend device"
def bugMsgHeaderSpace : String := "Not enough swapspace when writing header"
def bugMsgHeaderDev : String := "Not enough swapspace for header on suspend device"
def bugMsgNotSwap : String := "Swapspace is not swapspace"
def bugMsgCreate : String := "Really should not happen"
def bugMsgCountMismatch : String := "BUG: count and copy passes disagree"
def bugMsgChainShort : String := "BUG: pagedir chain terminated early"
def bugMsgChainEnd : String := "BUG: pagedir chain does not end at the empty terminator"

/-- Modelled from the spec: `swapops.h` is not part of the sampled sources.
A swap slot handle packs the device (type) index into the high bits and the
slot offset into the low bits of a single word; value `0` is reserved to mean
"no slot" (allocation failure / the empty chain terminator). -/
def SWP_TYPE_SHIFT : Nat := 24

structure swp_entry_t where
  val : Nat
  deriving Repr, DecidableEq

/-- Modelled from the spec (missing `swapops.h`): build a slot handle. -/
def swp_entry (ty off : Nat) : swp_entry_t := ⟨ty * 2 ^ SWP_TYPE_SHIFT + off⟩

/-- Modelled from the spec (missing `swapops.h`): device index of a slot. -/
def swp_type (e : swp_entry_t) : Nat := e.val / 2 ^ SWP_TYPE_SHIFT

/-- Modelled from the spec (missing `swapops.h`): slot offset on its device. -/
def swp_offset (e : swp_entry_t) : Nat := e.val % 2 ^ SWP_TYPE_SHIFT

/-- A page backup entry (`struct pbe` from the missing `suspend.h`, as the
spec describes it): the buffer address holding the copy, the original
address the content came from and must return to, and the backing-store
slot.  The struct's trailing `dummy` scratch word (reused for the on-disk
chain link) is modelled as the explicit link field of `DiskPage.dirp`. -/
structure pbe where
  address : Nat
  orig_address : Nat
  swap_address : swp_entry_t
  deriving Repr, DecidableEq

/-- Modelled from the spec (missing `suspend.h`): `sizeof(struct pbe)` is 32
bytes (four machine words), so `PAGE_SIZE / sizeof(struct pbe) = 128` pbes fit
in one directory page. -/
def PBES_PER_PAGE : Nat := 128

/-- Modelled from the spec (missing `suspend.h`):
`SUSPEND_PD_PAGES(x) = ((x * sizeof(struct pbe)) / PAGE_SIZE) + 1`, the number
of directory pages written for `x` pbes. -/
def SUSPEND_PD_PAGES (x : Nat) : Nat := x / PBES_PER_PAGE + 1

/-- Identity of the running kernel, as consulted by `fill_suspend_header` and
`sanity_check` (`LINUX_VERSION_CODE`, `num_physpages`, `system_utsname`,
`num_online_cpus()`, `PAGE_SIZE`). -/
structure SysInfo where
  version_code : Nat
  num_physpages : Nat
  machine : List Char
  version : List Char
  num_cpus : Nat
  page_size : Nat

/-- `struct suspend_header` (layout from the missing `suspend.h`, fields as
the spec lists them): version code, physical page count, fixed-width machine
and version strings, CPU count, page size, directory handle, pbe count. -/
structure suspend_header where
  version_code : Nat
  num_physpages : Nat
  machine : List Char
  version : List Char
  num_cpus : Nat
  page_size : Nat
  suspend_pagedir : Nat
  num_pbes : Nat
  deriving Repr, DecidableEq

def zeroHeader : suspend_header := ⟨0, 0, [], [], 0, 0, 0, 0⟩

/-- `fill_suspend_header`: populate the header from the running system
(strings are `strncpy`ed into their fixed-width fields). -/
def fill_suspend_header (sys : SysInfo) (pagedir : Nat) (nr_copy_pages : Nat) :
    suspend_header :=
  { version_code := sys.version_code
    num_physpages := sys.num_physpages
    machine := sys.machine.take 8
    version := sys.version.take 20
    num_cpus := sys.num_cpus
    page_size := sys.page_size
    suspend_pagedir := pagedir
    num_pbes := nr_copy_pages }

/-- `strncmp(a, b, n) != 0`, on fixed-width fields modelled as `take n`. -/
def strncmpDiffers (a b : List Char) (n : Nat) : Bool :=
  decide (a.take n ≠ b.take n)

/-- `sanity_check`: field-by-field validation of a read-back header against
the running system; returns `0` on success and `-EPERM` (via
`sanity_check_failed`) on the first mismatch. -/
def sanity_check (sys : SysInfo) (sh : suspend_header) : Int :=
  if sh.version_code ≠ sys.version_code then -EPERM
  else if sh.num_physpages ≠ sys.num_physpages then -EPERM
  else if strncmpDiffers sh.machine sys.machine 8 then -EPERM
  else if strncmpDiffers sh.version sys.version 20 then -EPERM
  else if sh.num_cpus ≠ sys.num_cpus then -EPERM
  else if sh.page_size ≠ sys.page_size then -EPERM
  else 0

/-- One slot of the swap device, mirroring `union diskpage`: raw page data,
a pagedir page (its pbes plus the link stored in the trailing scratch bytes),
a suspend header plus trailing link, or the swap-header/marker page (its
magic plus the chain entry point stored after the magic). -/
inductive DiskPage where
  | raw : Nat → DiskPage
  | dirp : List pbe → swp_entry_t → DiskPage
  | headerp : suspend_header → swp_entry_t → DiskPage
  | swh : List Char → swp_entry_t → DiskPage
  deriving Repr, DecidableEq

/-- The suspend device: total map from device page index to page content. -/
abbrev Disk := Nat → DiskPage

def dupdate (d : Disk) (k : Nat) (v : DiskPage) : Disk :=
  fun x => if x = k then v else d x

/-- Reinterpreting a slot's bytes as the swap-header magic.  A slot of a
different kind yields no recognizable magic. -/
def viewMagic : DiskPage → List Char
  | .swh m _ => m
  | _ => []

/-- Reinterpreting a slot's trailing bytes as the chain link. -/
def viewLink : DiskPage → swp_entry_t
  | .swh _ l => l
  | .dirp _ l => l
  | .headerp _ l => l
  | .raw _ => ⟨0⟩

/-- Reinterpreting a slot's bytes as a suspend header. -/
def viewHeader : DiskPage → suspend_header
  | .headerp sh _ => sh
  | _ => zeroHeader

/-- Reinterpreting a slot's bytes as a pagedir page. -/
def viewDir : DiskPage → List pbe
  | .dirp l _ => l
  | _ => []

/-- Reinterpreting a slot's bytes as raw page data. -/
def viewRaw : DiskPage → Nat
  | .raw v => v
  | _ => 0

def SWAP_SPACE : List Char := ("SWAP-SPACE").toList
def SWAPSPACE2 : List Char := ("SWAPSPACE2").toList
def S1SUSP : List Char := ("S1SUSP....").toList
def S2SUSP : List Char := ("S2SUSP....").toList
def S1TAG : List Char := ("S1").toList
def S2TAG : List Char := ("S2").toList

/-- Physical memory at page granularity: page-aligned address ↦ content of
the page starting there. -/
abbrev Mem := Nat → Nat

def mupdate (m : Mem) (a v : Nat) : Mem :=
  fun x => if x = a then v else m x

/-- `ADDRESS(pfn)`: the (identity-mapped) virtual address of frame `pfn`. -/
def ADDRESS (pfn : Nat) : Nat := pfn * PAGE_SIZE

/-- Classification bits of one page frame (`PageReserved`, `PageNosave`). -/
structure PageFlags where
  reserved : Bool
  nosave : Bool
  deriving Repr, DecidableEq

/-- The machine's view of physical memory as consulted by the enumerator:
frame count, per-frame flags, the free-region classifier
(`is_head_of_free_region`, returning the length of the free run headed by a
frame, or `0`), and the `__nosave_begin`/`__nosave_end` section bounds. -/
structure MachineConfig where
  max_pfn : Nat
  flags : Nat → PageFlags
  free_region_len : Nat → Nat
  nosave_begin : Nat
  nosave_end : Nat

/-- The source asserts `BUG_ON(PageNosave(page))` for reserved pages: a
well-formed machine never flags a reserved frame nosave. -/
def cfgWF (cfg : MachineConfig) : Prop :=
  ∀ pfn, pfn < cfg.max_pfn → (cfg.flags pfn).reserved = true →
    (cfg.flags pfn).nosave = false

/-- The frame walk of `count_and_copy_data_pages`: starting at `pfn`, with
`fuel` bounding the number of loop iterations (each iteration advances `pfn`
by at least one), return the frame numbers that get counted/copied, in walk
order.  Non-reserved frames are skipped when nosave-flagged or when heading a
free region (the walk jumps the whole region); reserved frames are skipped
inside the `__nosave_begin .. __nosave_end` section. -/
def ccWalk (cfg : MachineConfig) : Nat → Nat → List Nat
  | _, 0 => []
  | pfn, fuel + 1 =>
    if pfn < cfg.max_pfn then
      if (cfg.flags pfn).reserved = false then
        if (cfg.flags pfn).nosave then ccWalk cfg (pfn + 1) fuel
        else if cfg.free_region_len pfn ≠ 0 then
          ccWalk cfg (pfn + cfg.free_region_len pfn) fuel
        else pfn :: ccWalk cfg (pfn + 1) fuel
      else
        if cfg.nosave_begin ≤ ADDRESS pfn ∧ ADDRESS pfn < cfg.nosave_end then
          ccWalk cfg (pfn + 1) fuel
        else pfn :: ccWalk cfg (pfn + 1) fuel
    else []

/-- The copying pass: for each counted frame, record `orig_address` in the
next pbe and `copy_page` the frame's content into that pbe's buffer. -/
def ccCopy (mem : Mem) : List Nat → List pbe → List pbe × Mem
  | [], _ => ([], mem)
  | _ :: _, [] => ([], mem)
  | pfn :: ps, p :: ds =>
    let mem1 := mupdate mem p.address (mem (ADDRESS pfn))
    let r := ccCopy mem1 ps ds
    ({ p with orig_address := ADDRESS pfn } :: r.1, r.2)

/-- `count_and_copy_data_pages`: walk every physical frame once; with no
directory, only count; with a directory, also record each counted frame's
original address and copy its content into the corresponding pbe buffer.
Returns the count together with the updated pbes and memory. -/
def count_and_copy_data_pages (cfg : MachineConfig)
    (pagedir_p : Option (List pbe)) (mem : Mem) : Nat × List pbe × Mem :=
  let pfns := ccWalk cfg 0 cfg.max_pfn
  match pagedir_p with
  | none => (pfns.length, [], mem)
  | some dir =>
    let r := ccCopy mem pfns dir
    (pfns.length, r.1, r.2)

/-- Modelled from the spec: `get_bitmask_order` (missing `bitops.h`) yields
the smallest `k` with `2^k` pages covering the request (§3: "order = smallest
k with 2^k pages ≥ directory size"). -/
def get_bitmask_order (n : Nat) : Nat :=
  if n ≤ 1 then 0 else (n - 1).log2 + 1

/-- The pages of a directory block of the given order starting at `base`. -/
def pagedirPages (base order : Nat) : List Nat :=
  (List.range (2 ^ order)).map (fun i => base + i * PAGE_SIZE)

/-- The per-pbe buffer allocation loop of `create_suspend_pagedir`: draw `n`
zeroed pages from the free-page list, flag each nosave, and seed one pbe per
page (`orig_address := 0`; the swap slot is not yet assigned). -/
def alloc_buffers : Nat → List Nat → Mem → Option (List pbe × List Nat × Mem × List Nat)
  | 0, pages, mem => some ([], pages, mem, [])
  | _ + 1, [], _ => none
  | k + 1, a :: rest, mem =>
    match alloc_buffers k rest (mupdate mem a 0) with
    | none => none
    | some (ps, pagesLeft, memF, ns) =>
      some (⟨a, 0, ⟨0⟩⟩ :: ps, pagesLeft, memF, a :: ns)

structure CreateOut where
  dir : List pbe
  base : Nat
  order : Nat
  blocksLeft : List Nat
  pagesLeft : List Nat
  mem : Mem
  nosaveSet : List Nat

/-- `create_suspend_pagedir`: allocate the directory's own block (order
computed from the pbe count), flag its pages nosave, then allocate one zeroed
nosave buffer page per pbe.  Block allocations draw from `blocks`, single
pages from `pages`; exhaustion is allocation failure (the source then tears
everything down via `free_suspend_pagedir` and returns NULL).  `nosaveSet`
records every page flagged nosave. -/
def create_suspend_pagedir (n : Nat) (blocks pages : List Nat) (mem : Mem) :
    Option CreateOut :=
  let order := get_bitmask_order (SUSPEND_PD_PAGES n)
  match blocks with
  | [] => none
  | b :: bl =>
    match alloc_buffers n pages mem with
    | none => none
    | some (ps, pagesLeft, mem1, bufSet) =>
      some ⟨ps, b, order, bl, pagesLeft, mem1, pagedirPages b order ++ bufSet⟩

structure PrepOut where
  res : KRes (List pbe × Nat × Mem)
  nosaveSet : List Nat
  blocksLeft : List Nat
  pagesLeft : List Nat
  root_swap : Nat

/-- `suspend_prepare_image`: count the pages to copy, abort with the
recoverable error `1` when free pages or free swap fall short of
`count + PAGES_FOR_IO` (the first shortfall also parks `root_swap` at
`0xFFFF`), allocate the pagedir (failure there panics), then run the copying
pass and `BUG()` if its count disagrees with the counting pass.  The machine
view at each of the two walks is passed explicitly (`cfgCount` at the first
call, `cfgCopy` at the second) since memory classification may have changed
in between.  The function never touches the swap device. -/
def suspend_prepare_image (cfgCount cfgCopy : MachineConfig) (mem : Mem)
    (nr_free freeswap root_swap : Nat) (blocks pages : List Nat) : PrepOut :=
  let nr_copy := (count_and_copy_data_pages cfgCount none mem).1
  let nr_needed := nr_copy + PAGES_FOR_IO
  if nr_free < nr_needed then ⟨.error (.errno 1), [], blocks, pages, 0xFFFF⟩
  else if freeswap < nr_needed then
    ⟨.error (.errno 1), [], blocks, pages, root_swap⟩
  else
    match create_suspend_pagedir nr_copy blocks pages mem with
    | none => ⟨.error (.bug bugMsgCreate), [], blocks, pages, root_swap⟩
    | some co =>
      let r := count_and_copy_data_pages cfgCopy (some co.dir) co.mem
      if nr_copy ≠ r.1 then
        ⟨.error (.bug bugMsgCountMismatch), co.nosaveSet, co.blocksLeft,
          co.pagesLeft, root_swap⟩
      else
        ⟨.ok (r.2.1, co.base, r.2.2), co.nosaveSet, co.blocksLeft,
          co.pagesLeft, root_swap⟩

def SWAPFILE_UNUSED : Nat := 0
def SWAPFILE_SUSPEND : Nat := 1
def SWAPFILE_IGNORED : Nat := 2
def MARK_SWAP_SUSPEND : Nat := 0
def MARK_SWAP_RESUME : Nat := 2

/-- `get_swap_page`: draw the next free slot; exhaustion yields the zero
handle, which callers detect via `!entry.val`. -/
def get_swap_page : List swp_entry_t → swp_entry_t × List swp_entry_t
  | [] => (⟨0⟩, [])
  | e :: r => (e, r)

/-- `mark_swapfiles`: read the marker slot of the root swap device and flip
its magic.  On suspend (`MARK_SWAP_SUSPEND`) a plain-swap magic becomes the
committed-image magic and the chain entry point `prev` is stored in the
trailing bytes; any other magic panics.  On resume a committed magic is
restored to the matching plain-swap magic (an unrecognized magic only gets a
complaint printed and the page is written back as read).  A root swap of
`0xFFFF` means "ignored" and nothing is touched. -/
def mark_swapfiles (root_swap : Nat) (prev : swp_entry_t) (mode : Nat)
    (d : Disk) : KRes Disk :=
  if root_swap = 0xFFFF then .ok d
  else
    let cur := d 0
    let magic := viewMagic cur
    if mode = MARK_SWAP_RESUME then
      if magic.take 2 = S1TAG then .ok (dupdate d 0 (.swh SWAP_SPACE (viewLink cur)))
      else if magic.take 2 = S2TAG then .ok (dupdate d 0 (.swh SWAPSPACE2 (viewLink cur)))
      else .ok (dupdate d 0 cur)
    else
      if magic.take 10 = SWAP_SPACE then .ok (dupdate d 0 (.swh S1SUSP prev))
      else if magic.take 10 = SWAPSPACE2 then .ok (dupdate d 0 (.swh S2SUSP prev))
      else .error (.bug bugMsgNotSwap)

/-- Data phase of `write_suspend_image`: for each pbe allocate a slot (must
belong to the suspend device, else panic), write the buffer content to it and
record it in `swap_address`. -/
def writeDataPages (su : Nat → Nat) (mem : Mem) :
    List pbe → List swp_entry_t → Disk → KRes (List pbe × List swp_entry_t × Disk)
  | [], slots, d => .ok ([], slots, d)
  | p :: ps, slots, d =>
    let r := get_swap_page slots
    if r.1.val = 0 then .error (.bug bugMsgDataSpace)
    else if su (swp_type r.1) ≠ SWAPFILE_SUSPEND then .error (.bug bugMsgDataDev)
    else
      match writeDataPages su mem ps r.2
          (dupdate d (swp_offset r.1) (.raw (mem p.address))) with
      | .error e => .error e
      | .ok (ps', sl, d') => .ok ({ p with swap_address := r.1 } :: ps', sl, d')

/-- The pagedir-region pages as written: page `i` carries the pbes at
`[i * PBES_PER_PAGE, (i+1) * PBES_PER_PAGE)`; bytes past the recorded pbes
are uninterpreted padding of the region. -/
def chunkPages : Nat → List pbe → List (List pbe)
  | 0, _ => []
  | k + 1, l => l.take PBES_PER_PAGE :: chunkPages k (l.drop PBES_PER_PAGE)

/-- Directory phase of `write_suspend_image`: write each directory page to a
fresh slot, its trailing bytes overwritten with the link to the previously
written directory slot (the first page links to the empty terminator). -/
def writeDirPages (su : Nat → Nat) :
    List (List pbe) → swp_entry_t → List swp_entry_t → Disk →
      KRes (swp_entry_t × List swp_entry_t × Disk)
  | [], prev, slots, d => .ok (prev, slots, d)
  | c :: cs, prev, slots, d =>
    let r := get_swap_page slots
    if r.1.val = 0 then .error (.bug bugMsgPgdirSpace)
    else if su (swp_type r.1) ≠ SWAPFILE_SUSPEND then .error (.bug bugMsgPgdirDev)
    else writeDirPages su cs r.1 r.2 (dupdate d (swp_offset r.1) (.dirp c prev))

structure WriteOut where
  dir : List pbe
  slotsLeft : List swp_entry_t
  disk : Disk

/-- `write_suspend_image`: three persisted phases — data pages, then the
`SUSPEND_PD_PAGES(n)` directory pages chained in reverse, then the header
chained to the last directory slot — followed by the signature commit, which
stores the header slot as the chain entry point in the marker. -/
def write_suspend_image (sys : SysInfo) (su : Nat → Nat) (root_swap : Nat)
    (pagedir : Nat) (mem : Mem) (dir : List pbe) (n : Nat)
    (slots : List swp_entry_t) (d : Disk) : KRes WriteOut :=
  let nr_pgdir_pages := SUSPEND_PD_PAGES n
  match writeDataPages su mem (dir.take n) slots d with
  | .error e => .error e
  | .ok (dir', slots1, d1) =>
    match writeDirPages su (chunkPages nr_pgdir_pages dir') ⟨0⟩ slots1 d1 with
    | .error e => .error e
    | .ok (prev, slots2, d2) =>
      let r := get_swap_page slots2
      if r.1.val = 0 then .error (.bug bugMsgHeaderSpace)
      else if su (swp_type r.1) ≠ SWAPFILE_SUSPEND then .error (.bug bugMsgHeaderDev)
      else
        let sh := fill_suspend_header sys pagedir n
        let d3 := dupdate d2 (swp_offset r.1) (.headerp sh prev)
        match mark_swapfiles root_swap r.1 MARK_SWAP_SUSPEND d3 with
        | .error e => .error e
        | .ok d4 => .ok ⟨dir', r.2, d4⟩

/-- `does_collide_order`: does `[addr, addr + PAGE_SIZE * 2^order)` contain
any `orig_address` of the first `nr` pbes of the directory? -/
def does_collide_order (pagedir : List pbe) (nr : Nat) (addr order : Nat) : Bool :=
  (pagedir.take nr).any
    (fun p => decide (addr ≤ p.orig_address) &&
      decide (p.orig_address < addr + PAGE_SIZE * 2 ^ order))

/-- The `do { get_zeroed_page } while (does_collide)` loop of
`check_pagedir`: draw (and zero) candidate pages until one avoids every
`orig_address`; candidate exhaustion is `get_zeroed_page` failure. -/
def allocNonColliding (pagedir : List pbe) (nr : Nat) :
    List Nat → Mem → Option (Nat × List Nat × Mem)
  | [], _ => none
  | a :: rest, mem =>
    let mem1 := mupdate mem a 0
    if does_collide_order pagedir nr a 0 then allocNonColliding pagedir nr rest mem1
    else some (a, rest, mem1)

def check_loop (pagedir : List pbe) (nr : Nat) :
    List pbe → List Nat → Mem → KRes (List pbe × List Nat × Mem)
  | [], pages, mem => .ok ([], pages, mem)
  | p :: ps, pages, mem =>
    match allocNonColliding pagedir nr pages mem with
    | none => .error (.errno (-ENOMEM))
    | some (a, pages1, mem1) =>
      match check_loop pagedir nr ps pages1 mem1 with
      | .error e => .error e
      | .ok (ps', pages2, mem2) => .ok ({ p with address := a } :: ps', pages2, mem2)

/-- `check_pagedir`: assign each of the first `nr` pbes a freshly allocated
zeroed buffer page that collides with no `orig_address` in the directory. -/
def check_pagedir (dir : List pbe) (nr : Nat) (pages : List Nat) (mem : Mem) :
    KRes (List pbe × List Nat × Mem) :=
  match check_loop dir nr (dir.take nr) pages mem with
  | .error e => .error e
  | .ok (pre, pagesLeft, memF) => .ok (pre ++ dir.drop nr, pagesLeft, memF)

/-- `copy_pagedir`, page by page (`copy_page` per page of the block). -/
def copy_pages : Nat → Nat → Nat → Mem → Mem
  | 0, _, _, mem => mem
  | k + 1, toA, fromA, mem =>
    copy_pages k (toA + PAGE_SIZE) (fromA + PAGE_SIZE) (mupdate mem toA (mem fromA))

def copy_pagedir (order toA fromA : Nat) (mem : Mem) : Mem :=
  copy_pages (2 ^ order) toA fromA mem

/-- The candidate loop of `relocate_pagedir`: allocate blocks of the pagedir
order, zero the block's head page (`memset(m, 0, PAGE_SIZE)`), and keep the
rejected (colliding) candidates on an eaten-memory chain threaded through
their head pages (`*eaten_memory = c`) until a collision-free block appears;
allocator exhaustion (`__get_free_pages` returning NULL) fails the loop. -/
def relocate_loop (old : List pbe) (nr order : Nat) :
    List Nat → Mem → Nat → Option (Nat × List Nat × Mem)
  | [], _, _ => none
  | m :: rest, mem, chead =>
    let mem1 := mupdate mem m 0
    if does_collide_order old nr m order then
      relocate_loop old nr order rest (mupdate mem1 m chead) m
    else some (m, rest, mem1)

/-- `relocate_pagedir`: if the freshly loaded directory block collides with
an `orig_address`, find a collision-free block, copy the directory there and
free the old block and the eaten candidates (frees are not tracked by the
allocator model). -/
def relocate_pagedir (dir : List pbe) (nr oldAddr order : Nat)
    (blocks : List Nat) (mem : Mem) : KRes (Nat × List Nat × Mem) :=
  if does_collide_order dir nr oldAddr order = false then .ok (oldAddr, blocks, mem)
  else
    match relocate_loop dir nr order blocks mem 0 with
    | none => .error (.errno (-ENOMEM))
    | some (m, rest, mem1) => .ok (m, rest, copy_pagedir order m oldAddr mem1)

/-- The pagedir chain read loop of `read_suspend_image`: follow `count`
links, `BUG()` if the chain reaches the empty terminator early, and collect
the pages so that the page read first lands at the highest index ("we get
pages in reverse order of saving").  Returns the pages in array order along
with the link position left after the last read. -/
def readChain (d : Disk) : Nat → Nat → KRes (List (List pbe) × Nat)
  | next, 0 => .ok ([], next)
  | next, count + 1 =>
    if next = 0 then .error (.bug bugMsgChainShort)
    else
      let cur := d (next / PAGE_SIZE)
      match readChain d (swp_offset (viewLink cur) * PAGE_SIZE) count with
      | .error e => .error e
      | .ok (ps, fin) => .ok (ps ++ [viewDir cur], fin)

/-- The data read loop of `read_suspend_image`: for each pbe, read the slot
recorded in `swap_address` into the buffer at `address`. -/
def readDataPages (d : Disk) : List pbe → Mem → Mem
  | [], mem => mem
  | p :: ps, mem =>
    readDataPages d ps (mupdate mem p.address (viewRaw (d (swp_offset p.swap_address))))

structure ReadOut where
  nr : Nat
  dir : List pbe
  base : Nat
  order : Nat
  mem : Mem
  blocksLeft : List Nat
  pagesLeft : List Nat

/-- `read_suspend_image`: read the marker (plain swap ⇒ `-EINVAL`, an
unrecognizable magic ⇒ `-EFAULT`), follow the stored entry point to the
header, validate it (`-EPERM` on mismatch), allocate a directory block
(`-ENOMEM` if impossible), read the `SUSPEND_PD_PAGES(num_pbes)` directory
pages back along the chain (`BUG()` on a short chain, and on a chain that
does not end at the empty terminator), relocate the directory, allocate
collision-free buffers, and finally read every data page into its buffer. -/
def read_suspend_image (sys : SysInfo) (d : Disk) (blocks pages : List Nat)
    (mem : Mem) : KRes ReadOut :=
  let cur := d 0
  let magic := viewMagic cur
  if magic.take 10 = SWAP_SPACE ∨ magic.take 10 = SWAPSPACE2 then
    .error (.errno (-EINVAL))
  else
    let next := swp_offset (viewLink cur) * PAGE_SIZE
    if magic.take 2 = S1TAG ∨ magic.take 2 = S2TAG then
      let hpage := d (next / PAGE_SIZE)
      let sh := viewHeader hpage
      if sanity_check sys sh = 0 then
        let next1 := swp_offset (viewLink hpage) * PAGE_SIZE
        let nr := sh.num_pbes
        let nr_pgdir_pages := SUSPEND_PD_PAGES nr
        let order := get_bitmask_order nr_pgdir_pages
        match blocks with
        | [] => .error (.errno (-ENOMEM))
        | base :: blocksLeft =>
          match readChain d next1 nr_pgdir_pages with
          | .error e => .error e
          | .ok (pagesArr, fin) =>
            if fin = 0 then
              let dir := pagesArr.flatten
              match relocate_pagedir dir nr base order blocksLeft mem with
              | .error e => .error e
              | .ok (base2, blocksLeft2, mem2) =>
                match check_pagedir dir nr pages mem2 with
                | .error e => .error e
                | .ok (dir2, pagesLeft2, mem3) =>
                  .ok ⟨nr, dir2, base2, order,
                    readDataPages d (dir2.take nr) mem3, blocksLeft2, pagesLeft2⟩
            else .error (.bug bugMsgChainEnd)
      else .error (.errno (-EPERM))
    else .error (.errno (-EFAULT))

/-- `swsusp_read`: an empty `resume_file` (no `resume=` target, or `noresume`)
returns `-ENOENT` before touching any device; otherwise allocate the bounce
page (`-ENOMEM` on failure), open the resume device (propagating the open
error) and run `read_suspend_image` on it. -/
def swsusp_read (resume_file : String) (pageOk : Bool) (bdev : Except Int Disk)
    (sys : SysInfo) (blocks pages : List Nat) (mem : Mem) : KRes ReadOut :=
  if resume_file.length = 0 then .error (.errno (-ENOENT))
  else if pageOk = false then .error (.errno (-ENOMEM))
  else
    match bdev with
    | .error code => .error (.errno code)
    | .ok d => read_suspend_image sys d blocks pages mem

/-- `noresume_setup`: the `noresume` boot option empties `resume_file`. -/
def noresume_setup (_str : String) : String := ""

/-- Modelled from the spec: the architecture low-level restore
(`swsusp_arch_suspend(1)`, `COPY_PAGES_BACK`) is outside the sampled sources;
per §4.5/§8 it copies each pbe's buffer content back to its
`orig_address`. -/
def copy_back : List pbe → Mem → Mem
  | [], mem => mem
  | p :: ps, mem => copy_back ps (mupdate mem p.orig_address (mem p.address))

/-! ### Specification helpers (used only to state and prove properties) -/

/-- Number of the six validated header fields that differ from the running
system. -/
def mismatchCount (sys : SysInfo) (sh : suspend_header) : Nat :=
  (if sh.version_code = sys.version_code then 0 else 1) +
  (if sh.num_physpages = sys.num_physpages then 0 else 1) +
  (if sh.machine = sys.machine then 0 else 1) +
  (if sh.version = sys.version then 0 else 1) +
  (if sh.num_cpus = sys.num_cpus then 0 else 1) +
  (if sh.page_size = sys.page_size then 0 else 1)

/-- Memory after zeroing each listed page in order. -/
def zeroPages : List Nat → Mem → Mem
  | [], mem => mem
  | a :: rest, mem => zeroPages rest (mupdate mem a 0)

/-- One step along the on-disk chain: the byte position named by the link
stored in the page at the current position. -/
def chainStep (d : Disk) (pos : Nat) : Nat :=
  swp_offset (viewLink (d (pos / PAGE_SIZE))) * PAGE_SIZE

/-- The position reached after `k` chain steps from `next`. -/
def chainPos (d : Disk) (next : Nat) : Nat → Nat
  | 0 => next
  | k + 1 => chainStep d (chainPos d next k)

/-- The pbes with their swap slots recorded, as the data phase leaves them. -/
def setSwap (ps : List pbe) (es : List swp_entry_t) : List pbe :=
  List.zipWith (fun p e => { p with swap_address := e }) ps es

/-- The pbes with fresh buffer addresses assigned, as `check_pagedir` leaves
them. -/
def setAddr (ps : List pbe) (addrs : List Nat) : List pbe :=
  List.zipWith (fun p a => { p with address := a }) ps addrs

/-- The disk after the data phase: slot `swp_offset e` of each drawn slot `e`
holds the corresponding pbe's buffer content. -/
def dataDisk (mem : Mem) : Disk → List pbe → List swp_entry_t → Disk
  | d, [], _ => d
  | d, _ :: _, [] => d
  | d, p :: ps, e :: es =>
    dataDisk mem (dupdate d (swp_offset e) (.raw (mem p.address))) ps es

/-- The disk after the directory phase: each chunk is stored at its drawn
slot, linked to the previously written slot. -/
def dirDisk : Disk → List (List pbe) → List swp_entry_t → swp_entry_t → Disk
  | d, [], _, _ => d
  | d, _ :: _, [], _ => d
  | d, c :: cs, e :: es, prev => dirDisk (dupdate d (swp_offset e) (.dirp c prev)) cs es e

/-- Last element of a slot list, or the default when it is empty. -/
def lastD (l : List swp_entry_t) (dflt : swp_entry_t) : swp_entry_t :=
  l.getLast?.getD dflt

/-- The directory chunks `cs` lie on disk at the slots `es`, each linked to
its predecessor, the first linked to `prev`. -/
def chainLaid (d : Disk) : swp_entry_t → List (List pbe) → List swp_entry_t → Prop
  | _, [], [] => True
  | prev, c :: cs, e :: es => d (swp_offset e) = .dirp c prev ∧ chainLaid d e cs es
  | _, _ :: _, [] => False
  | _, [], _ :: _ => False

/-! ### Supporting lemmas -/

theorem PAGE_SIZE_pos : 0 < PAGE_SIZE := by decide

theorem mupdate_same (m : Mem) (a v : Nat) : mupdate m a v a = v := by
  simp [mupdate]

theorem mupdate_other (m : Mem) (a v x : Nat) (h : x ≠ a) : mupdate m a v x = m x := by
  simp [mupdate, h]

theorem dupdate_same (d : Disk) (k : Nat) (v : DiskPage) : dupdate d k v k = v := by
  simp [dupdate]

theorem dupdate_other (d : Disk) (k : Nat) (v : DiskPage) (x : Nat) (h : x ≠ k) :
    dupdate d k v x = d x := by
  simp [dupdate, h]

theorem pos_div_page (off : Nat) : off * PAGE_SIZE / PAGE_SIZE = off :=
  Nat.mul_div_cancel off PAGE_SIZE_pos

/-- `count_and_copy_data_pages` returns the length of the frame walk as its
count, independently of the directory argument and of memory content. -/
theorem count_and_copy_fst (cfg : MachineConfig) (pd : Option (List pbe)) (mem : Mem) :
    (count_and_copy_data_pages cfg pd mem).1 = (ccWalk cfg 0 cfg.max_pfn).length := by
  cases pd <;> rfl

theorem ccWalk_ge (cfg : MachineConfig) :
    ∀ (fuel pfn x : Nat), x ∈ ccWalk cfg pfn fuel → pfn ≤ x := by
  intro fuel
  induction fuel with
  | zero => intro pfn x hx; simp [ccWalk] at hx
  | succ k ih =>
    intro pfn x hx
    rw [ccWalk] at hx
    split at hx
    · split at hx
      · split at hx
        · exact Nat.le_of_succ_le (ih (pfn + 1) x hx)
        · split at hx
          · exact le_trans (Nat.le_add_right pfn _) (ih _ x hx)
          · rcases List.mem_cons.mp hx with h | h
            · exact h ▸ le_refl _
            · exact Nat.le_of_succ_le (ih (pfn + 1) x h)
      · split at hx
        · exact Nat.le_of_succ_le (ih (pfn + 1) x hx)
        · rcases List.mem_cons.mp hx with h | h
          · exact h ▸ le_refl _
          · exact Nat.le_of_succ_le (ih (pfn + 1) x h)
    · simp at hx

theorem ccWalk_pairwise (cfg : MachineConfig) :
    ∀ (fuel pfn : Nat), (ccWalk cfg pfn fuel).Pairwise (· < ·) := by
  intro fuel
  induction fuel with
  | zero => intro pfn; simp [ccWalk]
  | succ k ih =>
    intro pfn
    rw [ccWalk]
    split
    · split
      · split
        · exact ih (pfn + 1)
        · split
          · exact ih _
          · exact List.Pairwise.cons
              (fun y hy => Nat.lt_of_succ_le (ccWalk_ge cfg k (pfn + 1) y hy)) (ih (pfn + 1))
      · split
        · exact ih (pfn + 1)
        · exact List.Pairwise.cons
            (fun y hy => Nat.lt_of_succ_le (ccWalk_ge cfg k (pfn + 1) y hy)) (ih (pfn + 1))
    · simp

theorem ccWalk_addr_nodup (cfg : MachineConfig) (fuel pfn : Nat) :
    ((ccWalk cfg pfn fuel).map ADDRESS).Nodup := by
  have hp := ccWalk_pairwise cfg fuel pfn
  exact List.Pairwise.map ADDRESS
    (fun a b h he =>
      absurd (Nat.eq_of_mul_eq_mul_right PAGE_SIZE_pos he) (Nat.ne_of_lt h)) hp

/-! ### Claim C10 -/

/-- Claim C10: when the configured resume file string is empty (no `resume=`
target, or `noresume` was set), `swsusp_read` returns `-ENOENT` immediately,
independent of (hence without opening) any block device and without reading
or writing any slot. -/
theorem swsusp_read_empty_resume_enoent (resume_file : String) (pageOk : Bool)
    (bdev : Except Int Disk) (sys : SysInfo) (blocks pages : List Nat) (mem : Mem)
    (h : resume_file.length = 0) :
    swsusp_read resume_file pageOk bdev sys blocks pages mem
      = .error (.errno (-ENOENT)) := by
  unfold swsusp_read
  rw [if_pos h]

/-- Witness for C10: `noresume` empties the resume file, and reading then
fails with `-ENOENT` on a concrete device state. -/
theorem swsusp_read_empty_resume_enoent_witness :
    (noresume_setup ("resume=/dev/hda2")).length = 0 ∧
    swsusp_read (noresume_setup ("resume=/dev/hda2")) true
      (.ok (fun _ => DiskPage.raw 0)) ⟨0, 0, [], [], 0, 0⟩ [] [] (fun _ => 0)
      = .error (.errno (-ENOENT)) :=
  ⟨rfl, swsusp_read_empty_resume_enoent _ _ _ _ _ _ _ rfl⟩

/-! ### Claim C7 -/

/-- Claim C7 (amended): for every device whose marker slot carries a
plain-swap magic, `read_suspend_image` returns the `-EINVAL` ("this is normal
swap space") error outcome, fully determined by the marker slot alone — it
reads nothing further from the device. -/
theorem normal_swap_read_outcome (sys : SysInfo) (d : Disk)
    (blocks pages : List Nat) (mem : Mem) (m : List Char) (lk : swp_entry_t)
    (hd0 : d 0 = DiskPage.swh m lk)
    (hm : m.take 10 = SWAP_SPACE ∨ m.take 10 = SWAPSPACE2) :
    read_suspend_image sys d blocks pages mem = .error (.errno (-EINVAL)) := by
  unfold read_suspend_image
  rw [hd0]
  simp only [viewMagic]
  rw [if_pos hm]

/-- Witness for C7's amended claim at a concrete device. -/
theorem normal_swap_read_outcome_witness :
    (fun (_ : Nat) => DiskPage.swh SWAP_SPACE ⟨0⟩) 0 = DiskPage.swh SWAP_SPACE ⟨0⟩ ∧
    read_suspend_image ⟨0, 0, [], [], 0, 0⟩ (fun _ => DiskPage.swh SWAP_SPACE ⟨0⟩)
      [] [] (fun _ => 0) = .error (.errno (-EINVAL)) :=
  ⟨rfl, normal_swap_read_outcome _ _ _ _ _ _ _ rfl (Or.inl (by decide))⟩

/-- Counterexample for C7 as stated: on a concrete plain-swap device the
image-read operation returns the error result `-EINVAL` — an error return,
not a non-error "no image present" outcome. -/
theorem normal_swap_read_is_error_cex :
    read_suspend_image ⟨0, 0, [], [], 0, 0⟩ (fun _ => DiskPage.swh SWAP_SPACE ⟨0⟩)
      [] [] (fun _ => 0) = .error (.errno (-EINVAL)) ∧
    ∀ out : ReadOut,
      read_suspend_image ⟨0, 0, [], [], 0, 0⟩ (fun _ => DiskPage.swh SWAP_SPACE ⟨0⟩)
        [] [] (fun _ => 0) ≠ .ok out := by
  have h1 : read_suspend_image ⟨0, 0, [], [], 0, 0⟩
      (fun _ => DiskPage.swh SWAP_SPACE ⟨0⟩) [] [] (fun _ => 0)
      = .error (.errno (-EINVAL)) := rfl
  exact ⟨h1, fun out h => Except.noConfusion (h1.symm.trans h)⟩

/-! ### Claim C8 -/

/-- Claim C8 (amended): the marker protocol has exactly two on-disk states;
on save, the single commit-time marker write flips a normal-swap magic
directly to the committed magic (storing the chain entry point), panics on
any other magic (so no intermediate "pending" state can ever be committed
from), and on resume cleanup flips a committed magic back to normal swap. -/
theorem marker_two_state_protocol (root_swap : Nat) (prev : swp_entry_t)
    (d : Disk) (m : List Char) (lk : swp_entry_t)
    (hroot : root_swap ≠ 0xFFFF) (hd0 : d 0 = DiskPage.swh m lk) :
    (m.take 10 = SWAP_SPACE →
      mark_swapfiles root_swap prev MARK_SWAP_SUSPEND d
        = .ok (dupdate d 0 (.swh S1SUSP prev))) ∧
    (m.take 10 = SWAPSPACE2 →
      mark_swapfiles root_swap prev MARK_SWAP_SUSPEND d
        = .ok (dupdate d 0 (.swh S2SUSP prev))) ∧
    (m.take 10 ≠ SWAP_SPACE → m.take 10 ≠ SWAPSPACE2 →
      mark_swapfiles root_swap prev MARK_SWAP_SUSPEND d
        = .error (.bug bugMsgNotSwap)) ∧
    (m.take 2 = S1TAG →
      mark_swapfiles root_swap prev MARK_SWAP_RESUME d
        = .ok (dupdate d 0 (.swh SWAP_SPACE lk))) ∧
    (m.take 2 = S2TAG →
      mark_swapfiles root_swap prev MARK_SWAP_RESUME d
        = .ok (dupdate d 0 (.swh SWAPSPACE2 lk))) := by
  refine ⟨?_, ?_, ?_, ?_, ?_⟩ <;> intros <;>
    simp_all [mark_swapfiles, viewMagic, viewLink, MARK_SWAP_SUSPEND, MARK_SWAP_RESUME,
      S1TAG, S2TAG, SWAP_SPACE, SWAPSPACE2]

/-- Witness for C8's amended claim: both commit flips and a resume revert at
concrete markers. -/
theorem marker_two_state_protocol_witness :
    mark_swapfiles 1 ⟨77⟩ MARK_SWAP_SUSPEND (fun _ => DiskPage.swh SWAP_SPACE ⟨0⟩)
      = .ok (dupdate (fun _ => DiskPage.swh SWAP_SPACE ⟨0⟩) 0 (.swh S1SUSP ⟨77⟩)) ∧
    mark_swapfiles 1 ⟨0⟩ MARK_SWAP_RESUME (fun _ => DiskPage.swh S1SUSP ⟨77⟩)
      = .ok (dupdate (fun _ => DiskPage.swh S1SUSP ⟨77⟩) 0 (.swh SWAP_SPACE ⟨77⟩)) := by
  constructor
  · exact (marker_two_state_protocol 1 ⟨77⟩ _ SWAP_SPACE ⟨0⟩ (by decide) rfl).1 (by decide)
  · exact (marker_two_state_protocol 1 ⟨0⟩ _ S1SUSP ⟨77⟩ (by decide) rfl).2.2.2.1 (by decide)

/-- Counterexample for C8 as stated: the save path's only marker write — the
commit at the end of `write_suspend_image` — moves a concrete marker from the
normal-swap magic directly to the committed magic in one transition; the
claimed intermediate suspend-pending state never exists on disk. -/
theorem marker_commit_skips_pending_cex :
    Except.map (fun dd => dd 0)
      (mark_swapfiles 1 ⟨77⟩ MARK_SWAP_SUSPEND (fun _ => DiskPage.swh SWAP_SPACE ⟨0⟩))
      = .ok (DiskPage.swh S1SUSP ⟨77⟩) ∧
    SWAP_SPACE ≠ S1SUSP := by
  constructor
  · rfl
  · decide

/-! ### Claim C3 -/

theorem sanity_check_cases (sys : SysInfo) (sh : suspend_header) :
    sanity_check sys sh = 0 ∨ sanity_check sys sh = -EPERM := by
  unfold sanity_check
  split_ifs <;> simp

theorem committed_not_plain (m : List Char)
    (h : m.take 2 = S1TAG ∨ m.take 2 = S2TAG) :
    ¬(m.take 10 = SWAP_SPACE ∨ m.take 10 = SWAPSPACE2) := by
  have h2 : m.take 2 = (m.take 10).take 2 := by
    rw [List.take_take]
    norm_num
  rintro (h10 | h10) <;> rw [h10] at h2 <;> rcases h with hh | hh <;>
    rw [hh] at h2 <;> exact absurd h2 (by decide)

theorem eq_of_indicator_zero (c : Prop) [Decidable c]
    (h : (if c then 0 else 1) = 0) : c := by
  by_contra hc
  rw [if_neg hc] at h
  exact one_ne_zero h

theorem sanity_check_of_match (sys : SysInfo) (sh : suspend_header)
    (h : mismatchCount sys sh = 0) : sanity_check sys sh = 0 := by
  unfold mismatchCount at h
  have e1 := eq_of_indicator_zero (sh.version_code = sys.version_code) (by omega)
  have e2 := eq_of_indicator_zero (sh.num_physpages = sys.num_physpages) (by omega)
  have e3 := eq_of_indicator_zero (sh.machine = sys.machine) (by omega)
  have e4 := eq_of_indicator_zero (sh.version = sys.version) (by omega)
  have e5 := eq_of_indicator_zero (sh.num_cpus = sys.num_cpus) (by omega)
  have e6 := eq_of_indicator_zero (sh.page_size = sys.page_size) (by omega)
  simp [sanity_check, strncmpDiffers, e1, e2, e3, e4, e5, e6]

theorem sanity_zero_match (sys : SysInfo) (sh : suspend_header)
    (hm8 : sys.machine.length ≤ 8) (hsm8 : sh.machine.length ≤ 8)
    (hv20 : sys.version.length ≤ 20) (hsv20 : sh.version.length ≤ 20)
    (h : sanity_check sys sh = 0) : mismatchCount sys sh = 0 := by
  unfold sanity_check at h
  split_ifs at h with h1 h2 h3 h4 h5 h6
  all_goals try exact absurd h (by decide)
  have hm : sh.machine = sys.machine := by
    have := of_not_not (by simpa [strncmpDiffers] using h3)
    rwa [List.take_of_length_le hsm8, List.take_of_length_le hm8] at this
  have hv : sh.version = sys.version := by
    have := of_not_not (by simpa [strncmpDiffers] using h4)
    rwa [List.take_of_length_le hsv20, List.take_of_length_le hv20] at this
  have h1' := of_not_not h1
  have h2' := of_not_not h2
  have h5' := of_not_not h5
  have h6' := of_not_not h6
  simp [mismatchCount, h1', h2', hm, hv, h5', h6']

theorem read_rejects_bad_header (sys : SysInfo) (d : Disk)
    (blocks pages : List Nat) (mem : Mem) (m : List Char)
    (lk hl : swp_entry_t) (sh : suspend_header)
    (hd0 : d 0 = DiskPage.swh m lk)
    (htag : m.take 2 = S1TAG ∨ m.take 2 = S2TAG)
    (hheader : d (swp_offset lk) = DiskPage.headerp sh hl)
    (hsan : sanity_check sys sh ≠ 0) :
    read_suspend_image sys d blocks pages mem = .error (.errno (-EPERM)) := by
  have hplain := committed_not_plain m htag
  simp only [read_suspend_image, hd0, viewMagic, viewLink]
  rw [if_neg hplain, if_pos htag, pos_div_page, hheader]
  simp only [viewHeader]
  rw [if_neg hsan]

/-- Claim C3: a header identical to the running system in all six validated
fields is accepted (`sanity_check` returns success); a header differing in
exactly one of those fields is rejected with `-EPERM`, and the resume path
then returns that failure using none of the image's data (the result is
fixed by the marker and header slots alone).  The string fields are
fixed-width (8 and 20 bytes). -/
theorem sanity_check_validator (sys : SysInfo) (sh : suspend_header)
    (hm8 : sys.machine.length ≤ 8) (hsm8 : sh.machine.length ≤ 8)
    (hv20 : sys.version.length ≤ 20) (hsv20 : sh.version.length ≤ 20) :
    (mismatchCount sys sh = 0 → sanity_check sys sh = 0) ∧
    (mismatchCount sys sh = 1 →
      sanity_check sys sh = -EPERM ∧
      ∀ (d : Disk) (blocks pages : List Nat) (mem : Mem) (m : List Char)
        (lk hl : swp_entry_t),
        d 0 = DiskPage.swh m lk →
        (m.take 2 = S1TAG ∨ m.take 2 = S2TAG) →
        d (swp_offset lk) = DiskPage.headerp sh hl →
        read_suspend_image sys d blocks pages mem = .error (.errno (-EPERM))) := by
  constructor
  · exact sanity_check_of_match sys sh
  · intro hmm
    have hsan : sanity_check sys sh ≠ 0 := by
      intro h0
      have := sanity_zero_match sys sh hm8 hsm8 hv20 hsv20 h0
      omega
    have hperm : sanity_check sys sh = -EPERM :=
      (sanity_check_cases sys sh).resolve_left hsan
    refine ⟨hperm, ?_⟩
    intro d blocks pages mem m lk hl hd0 htag hheader
    exact read_rejects_bad_header sys d blocks pages mem m lk hl sh hd0 htag hheader hsan

/-- Witness for C3: a concrete identical header is accepted and a concrete
header differing only in the CPU count is rejected, the resume read failing
with `-EPERM` on a concrete device. -/
theorem sanity_check_validator_witness :
    sanity_check ⟨132096, 8192, ("i686").toList, ("#1 SMP").toList, 1, 4096⟩
      ⟨132096, 8192, ("i686").toList, ("#1 SMP").toList, 1, 4096, 0, 3⟩ = 0 ∧
    sanity_check ⟨132096, 8192, ("i686").toList, ("#1 SMP").toList, 1, 4096⟩
      ⟨132096, 8192, ("i686").toList, ("#1 SMP").toList, 2, 4096, 0, 3⟩ = -EPERM ∧
    read_suspend_image ⟨132096, 8192, ("i686").toList, ("#1 SMP").toList, 1, 4096⟩
      (fun k => if k = 0 then DiskPage.swh S1SUSP ⟨5⟩ else
        DiskPage.headerp ⟨132096, 8192, ("i686").toList, ("#1 SMP").toList, 2, 4096, 0, 3⟩ ⟨4⟩)
      [] [] (fun _ => 0) = .error (.errno (-EPERM)) := by
  have hA := sanity_check_validator
    ⟨132096, 8192, ("i686").toList, ("#1 SMP").toList, 1, 4096⟩
    ⟨132096, 8192, ("i686").toList, ("#1 SMP").toList, 1, 4096, 0, 3⟩
    (by decide) (by decide) (by decide) (by decide)
  have hB := sanity_check_validator
    ⟨132096, 8192, ("i686").toList, ("#1 SMP").toList, 1, 4096⟩
    ⟨132096, 8192, ("i686").toList, ("#1 SMP").toList, 2, 4096, 0, 3⟩
    (by decide) (by decide) (by decide) (by decide)
  refine ⟨hA.1 (by decide), (hB.2 (by decide)).1, ?_⟩
  exact (hB.2 (by decide)).2
    (fun k => if k = 0 then DiskPage.swh S1SUSP ⟨5⟩ else
      DiskPage.headerp ⟨132096, 8192, ("i686").toList, ("#1 SMP").toList, 2, 4096, 0, 3⟩ ⟨4⟩)
    [] [] (fun _ => 0) S1SUSP ⟨5⟩ ⟨4⟩ (by decide) (Or.inl (by decide)) (by decide)

/-! ### Claim C6 -/

/-- Claim C6: whenever free pages fall short of the counted pages plus the
I/O margin, or free swap falls short of that same needed count, preparation
returns the recoverable failure `1` before allocating the page directory:
no snapshot resource is allocated, no exclude-from-snapshot (nosave) flag is
set, and — the function never touching the swap device — the on-disk marker
is unchanged. -/
theorem prepare_aborts_cleanly (cfgCount cfgCopy : MachineConfig) (mem : Mem)
    (nr_free freeswap root_swap : Nat) (blocks pages : List Nat)
    (h : nr_free < (count_and_copy_data_pages cfgCount none mem).1 + PAGES_FOR_IO ∨
      freeswap < (count_and_copy_data_pages cfgCount none mem).1 + PAGES_FOR_IO) :
    (suspend_prepare_image cfgCount cfgCopy mem nr_free freeswap root_swap
        blocks pages).res = .error (.errno 1) ∧
    (suspend_prepare_image cfgCount cfgCopy mem nr_free freeswap root_swap
        blocks pages).nosaveSet = [] ∧
    (suspend_prepare_image cfgCount cfgCopy mem nr_free freeswap root_swap
        blocks pages).blocksLeft = blocks ∧
    (suspend_prepare_image cfgCount cfgCopy mem nr_free freeswap root_swap
        blocks pages).pagesLeft = pages := by
  unfold suspend_prepare_image
  by_cases h1 : nr_free < (count_and_copy_data_pages cfgCount none mem).1 + PAGES_FOR_IO
  · rw [if_pos h1]
    exact ⟨rfl, rfl, rfl, rfl⟩
  · rw [if_neg h1, if_pos (h.resolve_left h1)]
    exact ⟨rfl, rfl, rfl, rfl⟩

/-- Witness for C6 on a one-frame machine with too little free swap. -/
theorem prepare_aborts_cleanly_witness :
    (suspend_prepare_image ⟨1, fun _ => ⟨false, false⟩, fun _ => 0, 0, 0⟩
        ⟨1, fun _ => ⟨false, false⟩, fun _ => 0, 0, 0⟩ (fun _ => 0)
        100000 512 1 [8192] [12288]).res = .error (.errno 1) ∧
    (suspend_prepare_image ⟨1, fun _ => ⟨false, false⟩, fun _ => 0, 0, 0⟩
        ⟨1, fun _ => ⟨false, false⟩, fun _ => 0, 0, 0⟩ (fun _ => 0)
        100000 512 1 [8192] [12288]).nosaveSet = [] ∧
    (suspend_prepare_image ⟨1, fun _ => ⟨false, false⟩, fun _ => 0, 0, 0⟩
        ⟨1, fun _ => ⟨false, false⟩, fun _ => 0, 0, 0⟩ (fun _ => 0)
        100000 512 1 [8192] [12288]).blocksLeft = [8192] ∧
    (suspend_prepare_image ⟨1, fun _ => ⟨false, false⟩, fun _ => 0, 0, 0⟩
        ⟨1, fun _ => ⟨false, false⟩, fun _ => 0, 0, 0⟩ (fun _ => 0)
        100000 512 1 [8192] [12288]).pagesLeft = [12288] :=
  prepare_aborts_cleanly _ _ _ _ _ _ _ _ (Or.inr (by decide))

/-! ### Claim C5 -/

theorem alloc_buffers_eq : ∀ (n : Nat) (pages : List Nat) (mem : Mem),
    n ≤ pages.length →
    alloc_buffers n pages mem
      = some ((pages.take n).map (fun a => (⟨a, 0, ⟨0⟩⟩ : pbe)), pages.drop n,
          zeroPages (pages.take n) mem, pages.take n) := by
  intro n
  induction n with
  | zero => intro pages mem _; simp [alloc_buffers, zeroPages]
  | succ k ih =>
    intro pages mem h
    cases pages with
    | nil => simp at h
    | cons a rest =>
      simp only [alloc_buffers, ih rest (mupdate mem a 0) (Nat.le_of_succ_le_succ h),
        List.take_succ_cons, List.drop_succ_cons, List.map_cons]
      simp [zeroPages]

theorem create_suspend_pagedir_some (n b : Nat) (bl pages : List Nat) (mem : Mem)
    (h : n ≤ pages.length) :
    create_suspend_pagedir n (b :: bl) pages mem
      = some ⟨(pages.take n).map (fun a => (⟨a, 0, ⟨0⟩⟩ : pbe)), b,
          get_bitmask_order (SUSPEND_PD_PAGES n), bl, pages.drop n,
          zeroPages (pages.take n) mem,
          pagedirPages b (get_bitmask_order (SUSPEND_PD_PAGES n)) ++ pages.take n⟩ := by
  unfold create_suspend_pagedir
  rw [alloc_buffers_eq n pages mem h]

/-- Claim C5: with no change to the machine's page classification between the
counting call and the copying call, `count_and_copy_data_pages` returns the
same count both times (the count depends on neither the directory argument
nor memory content); and whenever the copying pass does disagree with the
counting pass, `suspend_prepare_image` halts with a fatal `BUG()` (non-local
abort), not a recoverable error return. -/
theorem two_pass_count_consistency (cfgCount cfgCopy : MachineConfig) (mem : Mem)
    (nr_free freeswap root_swap : Nat) (blocks pages : List Nat) :
    (cfgCopy = cfgCount →
      ∀ (pd : Option (List pbe)) (m1 m2 : Mem),
        (count_and_copy_data_pages cfgCopy pd m1).1
          = (count_and_copy_data_pages cfgCount none m2).1) ∧
    ((count_and_copy_data_pages cfgCopy none mem).1
        ≠ (count_and_copy_data_pages cfgCount none mem).1 →
      ¬nr_free < (count_and_copy_data_pages cfgCount none mem).1 + PAGES_FOR_IO →
      ¬freeswap < (count_and_copy_data_pages cfgCount none mem).1 + PAGES_FOR_IO →
      ∀ (b : Nat) (bl : List Nat), blocks = b :: bl →
      (count_and_copy_data_pages cfgCount none mem).1 ≤ pages.length →
      (suspend_prepare_image cfgCount cfgCopy mem nr_free freeswap root_swap
          blocks pages).res = .error (.bug bugMsgCountMismatch)) := by
  constructor
  · intro he pd m1 m2
    subst he
    rw [count_and_copy_fst, count_and_copy_fst]
  · intro hne h1 h2 b bl hbl hp
    subst hbl
    unfold suspend_prepare_image
    rw [if_neg h1, if_neg h2, create_suspend_pagedir_some _ _ _ _ _ hp]
    split
    · rename_i heq
      exact absurd heq (by simp)
    · rename_i co heq
      injection heq with h3
      subst h3
      have hcond : (count_and_copy_data_pages cfgCount none mem).1
          ≠ (count_and_copy_data_pages cfgCopy
              (some ((pages.take (count_and_copy_data_pages cfgCount none mem).1).map
                (fun a => (⟨a, 0, ⟨0⟩⟩ : pbe))))
              (zeroPages (pages.take (count_and_copy_data_pages cfgCount none mem).1) mem)).1 := by
        rw [count_and_copy_fst, count_and_copy_fst] at hne ⊢
        exact fun hx => hne hx.symm
      rw [if_pos hcond]

/-- Witness for C5: counts agree when the machine view is unchanged, and a
concrete run whose second walk sees one frame fewer ends in the fatal
`BUG()`. -/
theorem two_pass_count_consistency_witness :
    (count_and_copy_data_pages ⟨1, fun _ => ⟨false, false⟩, fun _ => 0, 0, 0⟩
        (some []) (fun _ => 0)).1
      = (count_and_copy_data_pages ⟨1, fun _ => ⟨false, false⟩, fun _ => 0, 0, 0⟩
          none (fun _ => 7)).1 ∧
    (suspend_prepare_image ⟨1, fun _ => ⟨false, false⟩, fun _ => 0, 0, 0⟩
        ⟨0, fun _ => ⟨false, false⟩, fun _ => 0, 0, 0⟩ (fun _ => 0)
        100000 100000 1 [8192] [12288]).res = .error (.bug bugMsgCountMismatch) := by
  constructor
  · exact (two_pass_count_consistency ⟨1, fun _ => ⟨false, false⟩, fun _ => 0, 0, 0⟩
      ⟨1, fun _ => ⟨false, false⟩, fun _ => 0, 0, 0⟩ (fun _ => 0) 0 0 0 [] []).1
      rfl (some []) (fun _ => 0) (fun _ => 7)
  · exact (two_pass_count_consistency ⟨1, fun _ => ⟨false, false⟩, fun _ => 0, 0, 0⟩
      ⟨0, fun _ => ⟨false, false⟩, fun _ => 0, 0, 0⟩ (fun _ => 0)
      100000 100000 1 [8192] [12288]).2 (by decide) (by decide) (by decide)
      8192 [] rfl (by decide)

/-! ### Claim C9 -/

theorem ccCopy_map_orig : ∀ (pfns : List Nat) (dir : List pbe) (mem : Mem),
    (ccCopy mem pfns dir).1.map pbe.orig_address = (pfns.take dir.length).map ADDRESS := by
  intro pfns
  induction pfns with
  | nil => intro dir mem; simp [ccCopy]
  | cons pf ps ih =>
    intro dir mem
    cases dir with
    | nil => simp [ccCopy]
    | cons p ds => simp [ccCopy, ih]

/-- Claim C9: the pbes produced by the enumerator's copying pass record
pairwise distinct `orig_address` values (the walk visits strictly increasing
frame numbers). -/
theorem enumerator_orig_addresses_distinct (cfg : MachineConfig) (dir : List pbe)
    (mem : Mem) (hwf : cfgWF cfg) :
    ((count_and_copy_data_pages cfg (some dir) mem).2.1.map pbe.orig_address).Nodup := by
  show ((ccCopy mem (ccWalk cfg 0 cfg.max_pfn) dir).1.map pbe.orig_address).Nodup
  rw [ccCopy_map_orig]
  exact List.Nodup.sublist (List.Sublist.map ADDRESS (List.take_sublist _ _))
    (ccWalk_addr_nodup cfg cfg.max_pfn 0)

/-- Witness for C9 on a three-frame machine. -/
theorem enumerator_orig_addresses_distinct_witness :
    cfgWF ⟨3, fun _ => ⟨false, false⟩, fun _ => 0, 0, 0⟩ ∧
    ((count_and_copy_data_pages ⟨3, fun _ => ⟨false, false⟩, fun _ => 0, 0, 0⟩
        (some [⟨40960, 0, ⟨0⟩⟩, ⟨45056, 0, ⟨0⟩⟩, ⟨49152, 0, ⟨0⟩⟩])
        (fun a => a + 7)).2.1.map pbe.orig_address).Nodup :=
  ⟨fun _ _ _ => rfl,
    enumerator_orig_addresses_distinct _ _ _ (fun _ _ _ => rfl)⟩

/-! ### Claim C2 -/

theorem list_any_map {α β : Type} (f : α → β) (p : β → Bool) :
    ∀ l : List α, (l.map f).any p = l.any (fun x => p (f x)) := by
  intro l
  induction l with
  | nil => rfl
  | cons a t ih => simp [ih]

theorem does_collide_order_eq (l : List pbe) (nr a o : Nat) :
    does_collide_order l nr a o
      = ((l.take nr).map pbe.orig_address).any
          (fun x => decide (a ≤ x) && decide (x < a + PAGE_SIZE * 2 ^ o)) := by
  rw [does_collide_order, list_any_map]

theorem does_collide_order_congr (l1 l2 : List pbe) (nr a o : Nat)
    (h : (l1.take nr).map pbe.orig_address = (l2.take nr).map pbe.orig_address) :
    does_collide_order l1 nr a o = does_collide_order l2 nr a o := by
  rw [does_collide_order_eq, does_collide_order_eq, h]

theorem allocNonColliding_some :
    ∀ (pages : List Nat) (mem : Mem) (pagedir : List pbe) (nr a : Nat)
      (pl : List Nat) (m1 : Mem),
      allocNonColliding pagedir nr pages mem = some (a, pl, m1) →
      does_collide_order pagedir nr a 0 = false := by
  intro pages
  induction pages with
  | nil => intro mem pagedir nr a pl m1 h; exact absurd h (by simp [allocNonColliding])
  | cons b rest ih =>
    intro mem pagedir nr a pl m1 h
    rw [allocNonColliding] at h
    split at h
    · exact ih _ _ _ _ _ _ h
    · rename_i hc
      injection h with h1
      injection h1 with h2 h3
      subst h2
      exact Bool.not_eq_true _ |>.mp hc

theorem check_loop_ok :
    ∀ (ps : List pbe) (pages : List Nat) (mem : Mem) (pagedir : List pbe)
      (nr : Nat) (ps2 : List pbe) (pl : List Nat) (m2 : Mem),
      check_loop pagedir nr ps pages mem = .ok (ps2, pl, m2) →
      (∀ q ∈ ps2, does_collide_order pagedir nr q.address 0 = false) ∧
      ps2.map pbe.orig_address = ps.map pbe.orig_address := by
  intro ps
  induction ps with
  | nil =>
    intro pages mem pagedir nr ps2 pl m2 h
    rw [check_loop] at h
    injection h with h1
    injection h1 with h2 h3
    subst h2
    exact ⟨by simp, rfl⟩
  | cons p rest ih =>
    intro pages mem pagedir nr ps2 pl m2 h
    rw [check_loop] at h
    split at h
    · exact absurd h (by simp)
    · rename_i a p1 md1 halloc
      split at h
      · exact absurd h (by simp)
      · rename_i ps' p2 md2 hrec
        injection h with h1
        injection h1 with h2 h3
        subst h2
        have hihs := ih p1 md1 pagedir nr ps' p2 md2 hrec
        constructor
        · intro q hq
          rcases List.mem_cons.mp hq with rfl | hq2
          · exact allocNonColliding_some pages mem pagedir nr a p1 md1 halloc
          · exact hihs.1 q hq2
        · simpa using hihs.2

theorem check_pagedir_ok (dir : List pbe) (nr : Nat) (pages : List Nat)
    (mem : Mem) (dir2 : List pbe) (pl : List Nat) (m3 : Mem)
    (h : check_pagedir dir nr pages mem = .ok (dir2, pl, m3)) :
    (∀ q ∈ dir2.take nr, does_collide_order dir nr q.address 0 = false) ∧
    (dir2.take nr).map pbe.orig_address = (dir.take nr).map pbe.orig_address := by
  unfold check_pagedir at h
  rcases hcl : check_loop dir nr (dir.take nr) pages mem with e | ⟨pre, pl2, mm⟩
  · rw [hcl] at h
    exact absurd h (by simp)
  · rw [hcl] at h
    injection h with h1
    injection h1 with h2 h3
    subst h2
    have hok := check_loop_ok (dir.take nr) pages mem dir nr pre pl2 mm hcl
    have hlen : pre.length = (dir.take nr).length := by
      have := congrArg List.length hok.2
      simpa using this
    have htake : (pre ++ dir.drop nr).take nr = pre := by
      by_cases hn : nr ≤ dir.length
      · refine List.take_left' ?_
        rw [hlen, List.length_take]
        omega
      · have hd : dir.drop nr = [] := List.drop_eq_nil_of_le (by omega)
        rw [hd, List.append_nil]
        refine List.take_of_length_le ?_
        rw [hlen, List.length_take]
        omega
    rw [htake]
    exact ⟨hok.1, hok.2⟩

theorem relocate_loop_some (old : List pbe) (nr order : Nat) :
    ∀ (blocks : List Nat) (mem : Mem) (chead m : Nat) (rest : List Nat) (m1 : Mem),
      relocate_loop old nr order blocks mem chead = some (m, rest, m1) →
      does_collide_order old nr m order = false := by
  intro blocks
  induction blocks with
  | nil => intro mem chead m rest m1 h; exact absurd h (by simp [relocate_loop])
  | cons b bs ih =>
    intro mem chead m rest m1 h
    rw [relocate_loop] at h
    split at h
    · exact ih _ _ _ _ _ h
    · rename_i hc
      injection h with h1
      injection h1 with h2 h3
      subst h2
      exact Bool.not_eq_true _ |>.mp hc

theorem relocate_pagedir_ok (dir : List pbe) (nr base order : Nat)
    (blocks : List Nat) (mem : Mem) (base2 : Nat) (bl2 : List Nat) (mem2 : Mem)
    (h : relocate_pagedir dir nr base order blocks mem = .ok (base2, bl2, mem2)) :
    does_collide_order dir nr base2 order = false := by
  unfold relocate_pagedir at h
  by_cases hc : does_collide_order dir nr base order = false
  · rw [if_pos hc] at h
    injection h with h1
    injection h1 with h2 h3
    subst h2
    exact hc
  · rw [if_neg hc] at h
    rcases hrl : relocate_loop dir nr order blocks mem 0 with _ | ⟨m, rest, mm⟩
    · rw [hrl] at h
      exact absurd h (by simp)
    · rw [hrl] at h
      injection h with h1
      injection h1 with h2 h3
      subst h2
      exact relocate_loop_some dir nr order blocks mem 0 m rest mm hrl

/-- Claim C2: after resume-side relocation and buffer allocation both
succeed, the page starting at any pbe's buffer address contains no
`orig_address` of any pbe in the directory, and the relocated directory's own
block of pages likewise contains none. -/
theorem relocation_collision_free (dir : List pbe) (nr base order : Nat)
    (blocks pages : List Nat) (mem : Mem) (base2 : Nat) (blocksLeft : List Nat)
    (mem2 : Mem) (dir2 : List pbe) (pagesLeft : List Nat) (mem3 : Mem)
    (hrel : relocate_pagedir dir nr base order blocks mem = .ok (base2, blocksLeft, mem2))
    (hchk : check_pagedir dir nr pages mem2 = .ok (dir2, pagesLeft, mem3)) :
    (∀ p ∈ dir2.take nr, does_collide_order dir2 nr p.address 0 = false) ∧
    does_collide_order dir2 nr base2 order = false := by
  have hok := check_pagedir_ok dir nr pages mem2 dir2 pagesLeft mem3 hchk
  have hcongr : ∀ (a o : Nat),
      does_collide_order dir2 nr a o = does_collide_order dir nr a o :=
    fun a o => does_collide_order_congr dir2 dir nr a o hok.2
  constructor
  · intro p hp
    rw [hcongr]
    exact hok.1 p hp
  · rw [hcongr]
    exact relocate_pagedir_ok dir nr base order blocks mem base2 blocksLeft mem2 hrel

/-- Witness for C2 on a concrete two-pbe directory. -/
theorem relocation_collision_free_witness :
    relocate_pagedir [⟨0, 8192, ⟨0⟩⟩, ⟨0, 12288, ⟨0⟩⟩] 2 65536 0 []
        (fun _ => 0) = .ok (65536, [], fun _ => 0) ∧
    check_pagedir [⟨0, 8192, ⟨0⟩⟩, ⟨0, 12288, ⟨0⟩⟩] 2 [69632, 73728]
        (fun _ => 0)
      = .ok ([⟨69632, 8192, ⟨0⟩⟩, ⟨73728, 12288, ⟨0⟩⟩], [],
          mupdate (mupdate (fun _ => 0) 69632 0) 73728 0) ∧
    ((∀ p ∈ ([⟨69632, 8192, ⟨0⟩⟩, ⟨73728, 12288, ⟨0⟩⟩] : List pbe).take 2,
        does_collide_order [⟨69632, 8192, ⟨0⟩⟩, ⟨73728, 12288, ⟨0⟩⟩] 2 p.address 0 = false) ∧
      does_collide_order [⟨69632, 8192, ⟨0⟩⟩, ⟨73728, 12288, ⟨0⟩⟩] 2 65536 0 = false) := by
  refine ⟨rfl, rfl, ?_⟩
  exact relocation_collision_free [⟨0, 8192, ⟨0⟩⟩, ⟨0, 12288, ⟨0⟩⟩] 2 65536 0
    [] [69632, 73728] (fun _ => 0) 65536 [] (fun _ => 0)
    [⟨69632, 8192, ⟨0⟩⟩, ⟨73728, 12288, ⟨0⟩⟩] []
    (mupdate (mupdate (fun _ => 0) 69632 0) 73728 0) rfl rfl

/-! ### Writer lemmas (claims C4 and C1) -/

theorem swp_offset_zero : swp_offset ⟨0⟩ = 0 := rfl

theorem val_ne_zero_of_offset (e : swp_entry_t) (h : swp_offset e ≠ 0) : e.val ≠ 0 := by
  intro hv
  exact h (by simp [swp_offset, hv])

theorem setSwap_nil (es : List swp_entry_t) : setSwap [] es = [] := rfl

theorem writeDataPages_eq (su : Nat → Nat) (mem : Mem) :
    ∀ (ps : List pbe) (es tail : List swp_entry_t) (d : Disk),
      ps.length = es.length →
      (∀ e ∈ es, swp_offset e ≠ 0 ∧ su (swp_type e) = SWAPFILE_SUSPEND) →
      writeDataPages su mem ps (es ++ tail) d
        = .ok (setSwap ps es, tail, dataDisk mem d ps es) := by
  intro ps
  induction ps with
  | nil =>
    intro es tail d hl he
    have hnil : es = [] := List.eq_nil_of_length_eq_zero hl.symm
    subst hnil
    simp [writeDataPages, setSwap, dataDisk]
  | cons p pr ih =>
    intro es tail d hl he
    cases es with
    | nil => simp at hl
    | cons e er =>
      have h1 := he e (List.mem_cons_self _ _)
      rw [List.cons_append, writeDataPages]
      simp only [get_swap_page]
      rw [if_neg (val_ne_zero_of_offset e h1.1), if_neg (by simp [h1.2])]
      rw [ih er tail (dupdate d (swp_offset e) (.raw (mem p.address)))
        (by simpa using hl) (fun x hx => he x (List.mem_cons_of_mem _ hx))]
      rfl

theorem dataDisk_notin (mem : Mem) :
    ∀ (ps : List pbe) (es : List swp_entry_t) (d : Disk) (k : Nat),
      (∀ e ∈ es, swp_offset e ≠ k) →
      dataDisk mem d ps es k = d k := by
  intro ps
  induction ps with
  | nil => intro es d k h; cases es <;> rfl
  | cons p pr ih =>
    intro es d k h
    cases es with
    | nil => rfl
    | cons e er =>
      rw [dataDisk, ih er _ k (fun x hx => h x (List.mem_cons_of_mem _ hx))]
      exact dupdate_other d _ _ k (fun hk => h e (List.mem_cons_self _ _) (hk ▸ rfl))

theorem dataDisk_get (mem : Mem) :
    ∀ (ps : List pbe) (es : List swp_entry_t) (d : Disk) (i : Nat)
      (h1 : i < ps.length) (h2 : i < es.length),
      (es.map swp_offset).Nodup →
      dataDisk mem d ps es (swp_offset (es.get ⟨i, h2⟩))
        = .raw (mem (ps.get ⟨i, h1⟩).address) := by
  intro ps
  induction ps with
  | nil => intro es d i h1 h2 hnd; simp at h1
  | cons p pr ih =>
    intro es d i h1 h2 hnd
    cases es with
    | nil => simp at h2
    | cons e er =>
      cases i with
      | zero =>
        have hg1 : (e :: er).get ⟨0, h2⟩ = e := rfl
        have hg2 : (p :: pr).get ⟨0, h1⟩ = p := rfl
        rw [hg1, hg2, dataDisk]
        rw [dataDisk_notin mem pr er _ (swp_offset e) ?hno]
        · exact dupdate_same _ _ _
        case hno =>
          intro x hx hcontra
          have : swp_offset e ∈ er.map swp_offset := by
            rw [← hcontra]
            exact List.mem_map_of_mem swp_offset hx
          exact (List.nodup_cons.mp (by simpa using hnd)).1 this
      | succ j =>
        have hg1 : (e :: er).get ⟨j + 1, h2⟩
            = er.get ⟨j, Nat.lt_of_succ_lt_succ h2⟩ := rfl
        have hg2 : (p :: pr).get ⟨j + 1, h1⟩
            = pr.get ⟨j, Nat.lt_of_succ_lt_succ h1⟩ := rfl
        rw [hg1, hg2, dataDisk]
        exact ih er _ j (Nat.lt_of_succ_lt_succ h1) (Nat.lt_of_succ_lt_succ h2)
          (List.nodup_cons.mp (by simpa using hnd)).2

theorem chunkPages_length (k : Nat) : ∀ l : List pbe, (chunkPages k l).length = k := by
  induction k with
  | zero => intro l; rfl
  | succ j ih => intro l; simp [chunkPages, ih]

theorem chunkPages_flatten (k : Nat) :
    ∀ l : List pbe, (chunkPages k l).flatten = l.take (k * PBES_PER_PAGE) := by
  induction k with
  | zero => intro l; simp [chunkPages]
  | succ j ih =>
    intro l
    rw [chunkPages]
    simp only [List.flatten_cons, ih]
    rw [show (j + 1) * PBES_PER_PAGE = PBES_PER_PAGE + j * PBES_PER_PAGE by ring,
      List.take_add]

theorem getD_getLast?_of_ne_nil {α : Type} : ∀ (l : List α) (x d1 d2 : α),
    (x :: l).getLast?.getD d1 = (x :: l).getLast?.getD d2 := by
  intro l
  induction l with
  | nil => intro x d1 d2; rfl
  | cons y ys ih =>
    intro x d1 d2
    rw [List.getLast?_cons_cons]
    exact ih y d1 d2

theorem lastD_cons (e : swp_entry_t) (l : List swp_entry_t) (dflt : swp_entry_t) :
    lastD (e :: l) dflt = lastD l e := by
  cases l with
  | nil => rfl
  | cons x xs =>
    show ((e :: x :: xs).getLast?).getD dflt = ((x :: xs).getLast?).getD e
    rw [List.getLast?_cons_cons]
    exact getD_getLast?_of_ne_nil xs x dflt e

theorem writeDirPages_eq (su : Nat → Nat) :
    ∀ (cs : List (List pbe)) (es tail : List swp_entry_t) (prev : swp_entry_t) (d : Disk),
      cs.length = es.length →
      (∀ e ∈ es, swp_offset e ≠ 0 ∧ su (swp_type e) = SWAPFILE_SUSPEND) →
      writeDirPages su cs prev (es ++ tail) d
        = .ok (lastD es prev, tail, dirDisk d cs es prev) := by
  intro cs
  induction cs with
  | nil =>
    intro es tail prev d hl he
    have hnil : es = [] := List.eq_nil_of_length_eq_zero hl.symm
    subst hnil
    simp [writeDirPages, lastD, dirDisk]
  | cons c cr ih =>
    intro es tail prev d hl he
    cases es with
    | nil => simp at hl
    | cons e er =>
      have h1 := he e (List.mem_cons_self _ _)
      rw [List.cons_append, writeDirPages]
      simp only [get_swap_page]
      rw [if_neg (val_ne_zero_of_offset e h1.1), if_neg (by simp [h1.2])]
      rw [ih er tail e (dupdate d (swp_offset e) (.dirp c prev))
        (by simpa using hl) (fun x hx => he x (List.mem_cons_of_mem _ hx))]
      rw [lastD_cons]
      rfl

theorem dirDisk_notin :
    ∀ (cs : List (List pbe)) (es : List swp_entry_t) (prev : swp_entry_t)
      (d : Disk) (k : Nat),
      (∀ e ∈ es, swp_offset e ≠ k) →
      dirDisk d cs es prev k = d k := by
  intro cs
  induction cs with
  | nil => intro es prev d k h; cases es <;> rfl
  | cons c cr ih =>
    intro es prev d k h
    cases es with
    | nil => rfl
    | cons e er =>
      rw [dirDisk, ih er e _ k (fun x hx => h x (List.mem_cons_of_mem _ hx))]
      exact dupdate_other d _ _ k (fun hk => h e (List.mem_cons_self _ _) (hk ▸ rfl))

theorem chainLaid_length (d : Disk) :
    ∀ (cs : List (List pbe)) (es : List swp_entry_t) (prev : swp_entry_t),
      chainLaid d prev cs es → cs.length = es.length := by
  intro cs
  induction cs with
  | nil => intro es prev h; cases es with
    | nil => rfl
    | cons x xs => exact absurd h (by simp [chainLaid])
  | cons c cr ih =>
    intro es prev h
    cases es with
    | nil => exact absurd h (by simp [chainLaid])
    | cons e er => simpa using ih er e h.2

theorem dirDisk_chainLaid :
    ∀ (cs : List (List pbe)) (es : List swp_entry_t) (prev : swp_entry_t) (d : Disk),
      cs.length = es.length →
      (es.map swp_offset).Nodup →
      chainLaid (dirDisk d cs es prev) prev cs es := by
  intro cs
  induction cs with
  | nil =>
    intro es prev d hl hnd
    have hnil : es = [] := List.eq_nil_of_length_eq_zero hl.symm
    subst hnil
    exact trivial
  | cons c cr ih =>
    intro es prev d hl hnd
    cases es with
    | nil => simp at hl
    | cons e er =>
      rw [dirDisk]
      constructor
      · rw [dirDisk_notin cr er e _ (swp_offset e) ?hno]
        · exact dupdate_same _ _ _
        case hno =>
          intro x hx hcontra
          have : swp_offset e ∈ er.map swp_offset := by
            rw [← hcontra]
            exact List.mem_map_of_mem swp_offset hx
          exact (List.nodup_cons.mp (by simpa using hnd)).1 this
      · exact ih er e _ (by simpa using hl) (List.nodup_cons.mp (by simpa using hnd)).2

theorem chainLaid_preserve (d d' : Disk) :
    ∀ (cs : List (List pbe)) (es : List swp_entry_t) (prev : swp_entry_t),
      chainLaid d prev cs es →
      (∀ e ∈ es, d' (swp_offset e) = d (swp_offset e)) →
      chainLaid d' prev cs es := by
  intro cs
  induction cs with
  | nil =>
    intro es prev h hagree
    cases es with
    | nil => exact trivial
    | cons x xs => exact absurd h (by simp [chainLaid])
  | cons c cr ih =>
    intro es prev h hagree
    cases es with
    | nil => exact absurd h (by simp [chainLaid])
    | cons e er =>
      refine ⟨?_, ih er e h.2 (fun x hx => hagree x (List.mem_cons_of_mem _ hx))⟩
      rw [hagree e (List.mem_cons_self _ _)]
      exact h.1

theorem chainLaid_nil_right (d : Disk) (prev : swp_entry_t) :
    ∀ (cs : List (List pbe)) (c : List pbe), ¬chainLaid d prev (cs ++ [c]) [] := by
  intro cs c h
  cases cs with
  | nil => exact h
  | cons x xs => exact h

theorem chainLaid_split_last (d : Disk) :
    ∀ (cs : List (List pbe)) (es : List swp_entry_t) (c : List pbe)
      (e prev : swp_entry_t),
      chainLaid d prev (cs ++ [c]) (es ++ [e]) →
      chainLaid d prev cs es ∧ d (swp_offset e) = .dirp c (lastD es prev) := by
  intro cs
  induction cs with
  | nil =>
    intro es c e prev h
    cases es with
    | nil => exact ⟨trivial, h.1⟩
    | cons x xs =>
      rcases h with ⟨h1, h2⟩
      exact absurd h2 (by cases xs <;> simp [chainLaid])
  | cons c0 cr ih =>
    intro es c e prev h
    cases es with
    | nil =>
      rcases h with ⟨h1, h2⟩
      exact absurd h2 (chainLaid_nil_right d e cr c)
    | cons e0 er =>
      rcases h with ⟨h1, h2⟩
      have hr := ih er c e e0 h2
      exact ⟨⟨h1, hr.1⟩, by rw [lastD_cons]; exact hr.2⟩

theorem readChain_of_chainLaid (d : Disk) :
    ∀ (cs : List (List pbe)) (es : List swp_entry_t) (prev : swp_entry_t),
      chainLaid d prev cs es →
      (∀ e ∈ es, swp_offset e ≠ 0) →
      readChain d (swp_offset (lastD es prev) * PAGE_SIZE) cs.length
        = .ok (cs, swp_offset prev * PAGE_SIZE) := by
  intro cs
  induction cs using List.reverseRecOn with
  | nil =>
    intro es prev h hne
    cases es with
    | nil => rfl
    | cons x xs => exact absurd h (by simp [chainLaid])
  | append_singleton cs0 c ihc =>
    intro es prev h hne
    rcases List.eq_nil_or_concat es with rfl | ⟨es0, e, he⟩
    · exact absurd h (chainLaid_nil_right d prev cs0 c)
    · rw [List.concat_eq_append] at he
      subst he
      have hsplit := chainLaid_split_last d cs0 es0 c e prev h
      have hlast : lastD (es0 ++ [e]) prev = e := by
        rw [lastD, List.getLast?_concat]
        rfl
      have hoff : swp_offset e ≠ 0 := hne e (by simp)
      have hnz : swp_offset e * PAGE_SIZE ≠ 0 := by
        intro hz
        rcases Nat.mul_eq_zero.mp hz with h0 | h0
        · exact hoff h0
        · exact absurd h0 (by decide)
      rw [hlast, List.length_append, List.length_cons, List.length_nil, Nat.zero_add]
      rw [readChain, if_neg hnz]
      simp only [pos_div_page, hsplit.2, viewLink, viewDir]
      rw [ihc es0 prev hsplit.1 (fun x hx => hne x (List.mem_append_left _ hx))]

theorem chainPos_shift (d : Disk) :
    ∀ (k : Nat) (next : Nat),
      chainPos d next (k + 1) = chainPos d (chainStep d next) k := by
  intro k
  induction k with
  | zero => intro next; rfl
  | succ j ih =>
    intro next
    show chainStep d (chainPos d next (j + 1)) = chainPos d (chainStep d next) (j + 1)
    rw [ih next]
    rfl

theorem readChain_early_zero (d : Disk) :
    ∀ (count next k : Nat), k < count → chainPos d next k = 0 →
      readChain d next count = .error (.bug bugMsgChainShort) := by
  intro count
  induction count with
  | zero => intro next k hk hz; omega
  | succ c ih =>
    intro next k hk hz
    by_cases hn : next = 0
    · rw [readChain, if_pos hn]
    · cases k with
      | zero => exact absurd hz hn
      | succ j =>
        rw [chainPos_shift] at hz
        have hrec2 : readChain d (swp_offset (viewLink (d (next / PAGE_SIZE)))
            * PAGE_SIZE) c = .error (.bug bugMsgChainShort) :=
          ih (chainStep d next) j (Nat.lt_of_succ_lt_succ hk) hz
        rw [readChain, if_neg hn]
        simp only []
        split
        · rename_i e heq
          rw [hrec2] at heq
          injection heq with h1
          rw [h1]
        · rename_i ps fin heq
          rw [hrec2] at heq
          exact absurd heq (by simp)

theorem write_suspend_image_eq (sys : SysInfo) (su : Nat → Nat) (root_swap : Nat)
    (pagedir : Nat) (mem : Mem) (dir : List pbe) (n : Nat)
    (es1 es2 : List swp_entry_t) (eh : swp_entry_t) (tail : List swp_entry_t)
    (d : Disk) (m0 : List Char) (l0 : swp_entry_t)
    (hn1 : (dir.take n).length = es1.length)
    (hn2 : es2.length = SUSPEND_PD_PAGES n)
    (hwf : ∀ e ∈ es1 ++ es2 ++ [eh],
      swp_offset e ≠ 0 ∧ su (swp_type e) = SWAPFILE_SUSPEND)
    (hroot : root_swap ≠ 0xFFFF)
    (hd0 : d 0 = DiskPage.swh m0 l0)
    (hm0 : m0.take 10 = SWAP_SPACE ∨ m0.take 10 = SWAPSPACE2) :
    write_suspend_image sys su root_swap pagedir mem dir n
        (es1 ++ es2 ++ [eh] ++ tail) d
      = .ok ⟨setSwap (dir.take n) es1, tail,
          dupdate
            (dupdate
              (dirDisk (dataDisk mem d (dir.take n) es1)
                (chunkPages (SUSPEND_PD_PAGES n) (setSwap (dir.take n) es1)) es2 ⟨0⟩)
              (swp_offset eh)
              (.headerp (fill_suspend_header sys pagedir n) (lastD es2 ⟨0⟩)))
            0 (.swh (if m0.take 10 = SWAP_SPACE then S1SUSP else S2SUSP) eh)⟩ := by
  have hwf1 : ∀ e ∈ es1, swp_offset e ≠ 0 ∧ su (swp_type e) = SWAPFILE_SUSPEND :=
    fun e he => hwf e (List.mem_append_left _ (List.mem_append_left _ he))
  have hwf2 : ∀ e ∈ es2, swp_offset e ≠ 0 ∧ su (swp_type e) = SWAPFILE_SUSPEND :=
    fun e he => hwf e (List.mem_append_left _ (List.mem_append_right _ he))
  have hwfh : swp_offset eh ≠ 0 ∧ su (swp_type eh) = SWAPFILE_SUSPEND :=
    hwf eh (List.mem_append_right _ (by simp))
  unfold write_suspend_image
  rw [List.append_assoc, List.append_assoc,
    writeDataPages_eq su mem (dir.take n) es1 (es2 ++ ([eh] ++ tail)) d hn1 hwf1]
  split
  · rename_i e heq
    exact absurd heq (by simp)
  · rename_i dir' slots1 d1 heq
    injection heq with h1
    injection h1 with h2 h3
    injection h3 with h4 h5
    subst h2 h4 h5
    simp only []
    rw [writeDirPages_eq su
      (chunkPages (SUSPEND_PD_PAGES n) (setSwap (dir.take n) es1)) es2
      ([eh] ++ tail) ⟨0⟩ _ (by rw [chunkPages_length, hn2]) hwf2]
    split
    · rename_i e heq2
      exact absurd heq2 (by simp)
    · rename_i prev slots2 d2 heq2
      injection heq2 with g1
      injection g1 with g2 g3
      injection g3 with g4 g5
      subst g2 g4 g5
      rw [List.singleton_append]
      simp only [get_swap_page]
      rw [if_neg (val_ne_zero_of_offset eh hwfh.1), if_neg (by simp [hwfh.2])]
      have hd30 : (dupdate
          (dirDisk (dataDisk mem d (dir.take n) es1)
            (chunkPages (SUSPEND_PD_PAGES n) (setSwap (dir.take n) es1)) es2 ⟨0⟩)
          (swp_offset eh)
          (.headerp (fill_suspend_header sys pagedir n) (lastD es2 ⟨0⟩))) 0
          = DiskPage.swh m0 l0 := by
        rw [dupdate_other _ _ _ 0 (fun h0 => hwfh.1 h0.symm)]
        rw [dirDisk_notin _ _ _ _ 0 (fun e hee => (hwf2 e hee).1)]
        rw [dataDisk_notin mem _ _ _ 0 (fun e hee => (hwf1 e hee).1)]
        exact hd0
      have hmark : mark_swapfiles root_swap eh MARK_SWAP_SUSPEND
          (dupdate
            (dirDisk (dataDisk mem d (dir.take n) es1)
              (chunkPages (SUSPEND_PD_PAGES n) (setSwap (dir.take n) es1)) es2 ⟨0⟩)
            (swp_offset eh)
            (.headerp (fill_suspend_header sys pagedir n) (lastD es2 ⟨0⟩)))
          = .ok (dupdate
              (dupdate
                (dirDisk (dataDisk mem d (dir.take n) es1)
                  (chunkPages (SUSPEND_PD_PAGES n) (setSwap (dir.take n) es1)) es2 ⟨0⟩)
                (swp_offset eh)
                (.headerp (fill_suspend_header sys pagedir n) (lastD es2 ⟨0⟩)))
              0 (.swh (if m0.take 10 = SWAP_SPACE then S1SUSP else S2SUSP) eh)) := by
        unfold mark_swapfiles
        rw [if_neg hroot, if_neg (by decide), hd30]
        simp only [viewMagic]
        rcases hm0 with hswap | hswap
        · rw [if_pos hswap, if_pos hswap]
        · have hne : m0.take 10 ≠ SWAP_SPACE := by
            rw [hswap]
            decide
          rw [if_neg hne, if_pos hswap, if_neg hne]
      rw [hmark]

/-! ### Claim C4 -/

/-- Claim C4: a successful writer run stores each directory page with its
trailing bytes overwritten by a link to the previously written slot — the
first directory page linking to the empty terminator and the header linking
to the last directory slot, the marker holding the header slot as entry
point — and the reader's chain walk, started from the header's link, recovers
exactly `SUSPEND_PD_PAGES(n)` directory pages, in reverse order of writing
(page `i` of the written directory lands at index `i`), with the link after
the last read being the empty terminator; a chain that reaches the empty
terminator early is rejected with a fatal `BUG()`, never accepted. -/
theorem pagedir_chain_integrity (sys : SysInfo) (su : Nat → Nat) (root_swap : Nat)
    (pagedir : Nat) (mem : Mem) (dir : List pbe) (n : Nat)
    (es1 es2 : List swp_entry_t) (eh : swp_entry_t) (tail : List swp_entry_t)
    (d : Disk) (m0 : List Char) (l0 : swp_entry_t) (w : WriteOut)
    (hn1 : (dir.take n).length = es1.length)
    (hn2 : es2.length = SUSPEND_PD_PAGES n)
    (hwf : ∀ e ∈ es1 ++ es2 ++ [eh],
      swp_offset e ≠ 0 ∧ su (swp_type e) = SWAPFILE_SUSPEND)
    (hnd : ((es1 ++ es2 ++ [eh]).map swp_offset).Nodup)
    (hroot : root_swap ≠ 0xFFFF)
    (hd0 : d 0 = DiskPage.swh m0 l0)
    (hm0 : m0.take 10 = SWAP_SPACE ∨ m0.take 10 = SWAPSPACE2)
    (hw : write_suspend_image sys su root_swap pagedir mem dir n
      (es1 ++ es2 ++ [eh] ++ tail) d = .ok w) :
    (w.disk 0 = .swh (if m0.take 10 = SWAP_SPACE then S1SUSP else S2SUSP) eh ∧
      w.disk (swp_offset eh)
        = .headerp (fill_suspend_header sys pagedir n) (lastD es2 ⟨0⟩) ∧
      readChain w.disk (swp_offset (lastD es2 ⟨0⟩) * PAGE_SIZE) (SUSPEND_PD_PAGES n)
        = .ok (chunkPages (SUSPEND_PD_PAGES n) (setSwap (dir.take n) es1), 0)) ∧
    (∀ (d2 : Disk) (next count k : Nat), k < count → chainPos d2 next k = 0 →
      readChain d2 next count = .error (.bug bugMsgChainShort)) := by
  rw [write_suspend_image_eq sys su root_swap pagedir mem dir n es1 es2 eh tail d
    m0 l0 hn1 hn2 hwf hroot hd0 hm0] at hw
  injection hw with hw1
  subst hw1
  simp only []
  have hnd2 : ((es2 ++ [eh]).map swp_offset).Nodup := by
    refine List.Nodup.sublist (List.Sublist.map swp_offset ?_) hnd
    rw [List.append_assoc]
    exact List.sublist_append_right es1 (es2 ++ [eh])
  rw [List.map_append] at hnd2
  have hnodup_es2 : (es2.map swp_offset).Nodup :=
    (List.nodup_append.mp hnd2).1
  have hdisj : ∀ e ∈ es2, swp_offset e ≠ swp_offset eh := by
    intro e hee hcontra
    have hmem : swp_offset e ∈ es2.map swp_offset := List.mem_map_of_mem _ hee
    have := (List.nodup_append.mp hnd2).2.2
    exact this hmem (by simp [hcontra])
  have hoffs2 : ∀ e ∈ es2, swp_offset e ≠ 0 :=
    fun e he =>
      (hwf e (List.mem_append_left _ (List.mem_append_right _ he))).1
  have hoffh : swp_offset eh ≠ 0 :=
    (hwf eh (List.mem_append_right _ (by simp))).1
  constructor
  · refine ⟨dupdate_same _ _ _, ?_, ?_⟩
    · rw [dupdate_other _ _ _ _ (fun h0 => hoffh h0), dupdate_same]
    · have hlaid : chainLaid
          (dirDisk (dataDisk mem d (dir.take n) es1)
            (chunkPages (SUSPEND_PD_PAGES n) (setSwap (dir.take n) es1)) es2 ⟨0⟩)
          ⟨0⟩ (chunkPages (SUSPEND_PD_PAGES n) (setSwap (dir.take n) es1)) es2 :=
        dirDisk_chainLaid _ es2 ⟨0⟩ _ (by rw [chunkPages_length, hn2]) hnodup_es2
      have hlaid2 : chainLaid
          (dupdate
            (dupdate
              (dirDisk (dataDisk mem d (dir.take n) es1)
                (chunkPages (SUSPEND_PD_PAGES n) (setSwap (dir.take n) es1)) es2 ⟨0⟩)
              (swp_offset eh)
              (.headerp (fill_suspend_header sys pagedir n) (lastD es2 ⟨0⟩)))
            0 (.swh (if m0.take 10 = SWAP_SPACE then S1SUSP else S2SUSP) eh))
          ⟨0⟩ (chunkPages (SUSPEND_PD_PAGES n) (setSwap (dir.take n) es1)) es2 := by
        refine chainLaid_preserve _ _ _ es2 ⟨0⟩ hlaid ?_
        intro e hee
        rw [dupdate_other _ _ _ _ (hoffs2 e hee),
          dupdate_other _ _ _ _ (hdisj e hee)]
      have hrc := readChain_of_chainLaid _ _ es2 ⟨0⟩ hlaid2 hoffs2
      rw [chunkPages_length] at hrc
      rw [hrc, swp_offset_zero, Nat.zero_mul]
  · exact fun d2 next count k hk hz => readChain_early_zero d2 count next k hk hz

/-- Witness for C4: a concrete two-pbe image whose single directory page is
written, chained and read back. -/
theorem pagedir_chain_integrity_witness :
    ∃ w : WriteOut,
      write_suspend_image ⟨132096, 8192, ("i686").toList, ("#1 SMP").toList, 1, 4096⟩
          (fun t => if t = 1 then 1 else 0) 1 81920 (fun a => a + 3)
          [⟨40960, 0, ⟨0⟩⟩, ⟨45056, 4096, ⟨0⟩⟩] 2
          ([swp_entry 1 1, swp_entry 1 2] ++ [swp_entry 1 3] ++ [swp_entry 1 4] ++ [])
          (fun _ => DiskPage.swh SWAP_SPACE ⟨0⟩) = .ok w ∧
      readChain w.disk (swp_offset (lastD [swp_entry 1 3] ⟨0⟩) * PAGE_SIZE)
          (SUSPEND_PD_PAGES 2)
        = .ok (chunkPages (SUSPEND_PD_PAGES 2)
            (setSwap (([⟨40960, 0, ⟨0⟩⟩, ⟨45056, 4096, ⟨0⟩⟩] : List pbe).take 2)
              [swp_entry 1 1, swp_entry 1 2]), 0) := by
  have hw := write_suspend_image_eq
    ⟨132096, 8192, ("i686").toList, ("#1 SMP").toList, 1, 4096⟩
    (fun t => if t = 1 then 1 else 0) 1 81920 (fun a => a + 3)
    [⟨40960, 0, ⟨0⟩⟩, ⟨45056, 4096, ⟨0⟩⟩] 2
    [swp_entry 1 1, swp_entry 1 2] [swp_entry 1 3] (swp_entry 1 4) []
    (fun _ => DiskPage.swh SWAP_SPACE ⟨0⟩) SWAP_SPACE ⟨0⟩
    (by decide) (by decide) (by decide) (by decide) rfl (Or.inl (by decide))
  refine ⟨_, hw, ?_⟩
  exact (pagedir_chain_integrity
    ⟨132096, 8192, ("i686").toList, ("#1 SMP").toList, 1, 4096⟩
    (fun t => if t = 1 then 1 else 0) 1 81920 (fun a => a + 3)
    [⟨40960, 0, ⟨0⟩⟩, ⟨45056, 4096, ⟨0⟩⟩] 2
    [swp_entry 1 1, swp_entry 1 2] [swp_entry 1 3] (swp_entry 1 4) []
    (fun _ => DiskPage.swh SWAP_SPACE ⟨0⟩) SWAP_SPACE ⟨0⟩ _
    (by decide) (by decide) (by decide) (by decide) (by decide) rfl
    (Or.inl (by decide)) hw).1.2.2

/-! ### Reader-side and snapshot lemmas (claim C1) -/

theorem sanity_check_fill (sys : SysInfo) (pagedir n : Nat) :
    sanity_check sys (fill_suspend_header sys pagedir n) = 0 := by
  simp [sanity_check, fill_suspend_header, strncmpDiffers, List.take_take]

theorem zeroPages_notin : ∀ (l : List Nat) (mem : Mem) (a : Nat),
    a ∉ l → zeroPages l mem a = mem a := by
  intro l
  induction l with
  | nil => intro mem a h; rfl
  | cons b rest ih =>
    intro mem a h
    rw [zeroPages, ih _ a (fun hx => h (List.mem_cons_of_mem _ hx))]
    exact mupdate_other _ _ _ _ (fun hx => h (hx ▸ List.mem_cons_self _ _))

theorem does_collide_order_false_of (l : List pbe) (nr a o : Nat)
    (h : ∀ x ∈ (l.take nr).map pbe.orig_address,
      ¬(a ≤ x ∧ x < a + PAGE_SIZE * 2 ^ o)) :
    does_collide_order l nr a o = false := by
  rw [does_collide_order_eq, List.any_eq_false]
  intro x hx
  have hx2 := h x hx
  by_cases h1 : a ≤ x
  · have h2 : ¬x < a + PAGE_SIZE * 2 ^ o := fun hlt => hx2 ⟨h1, hlt⟩
    simp [h2]
  · simp [h1]

theorem ccCopy_length : ∀ (pfns : List Nat) (dir : List pbe) (mem : Mem),
    (ccCopy mem pfns dir).1.length = min pfns.length dir.length := by
  intro pfns
  induction pfns with
  | nil => intro dir mem; simp [ccCopy]
  | cons pf ps ih =>
    intro dir mem
    cases dir with
    | nil => simp [ccCopy]
    | cons p ds => simp [ccCopy, ih, Nat.succ_min_succ]

theorem ccCopy_get : ∀ (pfns : List Nat) (dir : List pbe) (mem : Mem) (i : Nat)
    (h1 : i < pfns.length) (h2 : i < dir.length)
    (h3 : i < (ccCopy mem pfns dir).1.length),
    (ccCopy mem pfns dir).1.get ⟨i, h3⟩
      = { dir.get ⟨i, h2⟩ with orig_address := ADDRESS (pfns.get ⟨i, h1⟩) } := by
  intro pfns
  induction pfns with
  | nil => intro dir mem i h1 h2 h3; simp at h1
  | cons pf ps ih =>
    intro dir mem i h1 h2 h3
    cases dir with
    | nil => simp at h2
    | cons p ds =>
      cases i with
      | zero => rfl
      | succ j =>
        have hb : j < (ccCopy (mupdate mem p.address (mem (ADDRESS pf))) ps ds).1.length := by
          have h4 := h3
          rw [ccCopy_length] at h4 ⊢
          simp at h4
          omega
        have hg : (ccCopy mem (pf :: ps) (p :: ds)).1.get ⟨j + 1, h3⟩
            = (ccCopy (mupdate mem p.address (mem (ADDRESS pf))) ps ds).1.get ⟨j, hb⟩ := rfl
        rw [hg, ih ds (mupdate mem p.address (mem (ADDRESS pf))) j
          (Nat.lt_of_succ_lt_succ h1) (Nat.lt_of_succ_lt_succ h2) hb]
        rfl

theorem ccCopy_mem_notin : ∀ (pfns : List Nat) (dir : List pbe) (mem : Mem) (a : Nat),
    (∀ p ∈ dir, a ≠ p.address) → (ccCopy mem pfns dir).2 a = mem a := by
  intro pfns
  induction pfns with
  | nil => intro dir mem a h; rfl
  | cons pf ps ih =>
    intro dir mem a h
    cases dir with
    | nil => rfl
    | cons p ds =>
      have hr : (ccCopy mem (pf :: ps) (p :: ds)).2
          = (ccCopy (mupdate mem p.address (mem (ADDRESS pf))) ps ds).2 := rfl
      rw [hr, ih ds _ a (fun q hq => h q (List.mem_cons_of_mem _ hq))]
      exact mupdate_other _ _ _ _ (h p (List.mem_cons_self _ _))

theorem ccCopy_mem_get : ∀ (pfns : List Nat) (dir : List pbe) (mem : Mem),
    (dir.map pbe.address).Nodup →
    (∀ p ∈ dir, ∀ pf ∈ pfns, p.address ≠ ADDRESS pf) →
    ∀ (i : Nat) (h1 : i < pfns.length) (h2 : i < dir.length),
      (ccCopy mem pfns dir).2 ((dir.get ⟨i, h2⟩).address)
        = mem (ADDRESS (pfns.get ⟨i, h1⟩)) := by
  intro pfns
  induction pfns with
  | nil => intro dir mem hnd hdis i h1 h2; simp at h1
  | cons pf ps ih =>
    intro dir mem hnd hdis i h1 h2
    cases dir with
    | nil => simp at h2
    | cons p ds =>
      have hr : (ccCopy mem (pf :: ps) (p :: ds)).2
          = (ccCopy (mupdate mem p.address (mem (ADDRESS pf))) ps ds).2 := rfl
      cases i with
      | zero =>
        have hg : ((p :: ds).get ⟨0, h2⟩).address = p.address := rfl
        rw [hg, hr]
        rw [ccCopy_mem_notin ps ds _ p.address ?hdn]
        · exact mupdate_same _ _ _
        case hdn =>
          intro q hq hcontra
          have : p.address ∈ ds.map pbe.address := by
            rw [hcontra]
            exact List.mem_map_of_mem _ hq
          exact (List.nodup_cons.mp (by simpa using hnd)).1 this
      | succ j =>
        have hg1 : ((p :: ds).get ⟨j + 1, h2⟩)
            = ds.get ⟨j, Nat.lt_of_succ_lt_succ h2⟩ := rfl
        have hg2 : ((pf :: ps).get ⟨j + 1, h1⟩)
            = ps.get ⟨j, Nat.lt_of_succ_lt_succ h1⟩ := rfl
        rw [hg1, hg2, hr]
        rw [ih ds _ (List.nodup_cons.mp (by simpa using hnd)).2
          (fun q hq x hx => hdis q (List.mem_cons_of_mem _ hq) x (List.mem_cons_of_mem _ hx))
          j (Nat.lt_of_succ_lt_succ h1) (Nat.lt_of_succ_lt_succ h2)]
        exact mupdate_other _ _ _ _
          (fun hx => hdis p (List.mem_cons_self _ _)
            (ps.get ⟨j, Nat.lt_of_succ_lt_succ h1⟩)
            (List.mem_cons_of_mem _ (List.get_mem _ _ _)) hx.symm)

theorem setSwap_length (ps : List pbe) (es : List swp_entry_t) :
    (setSwap ps es).length = min ps.length es.length := by
  simp [setSwap]

theorem setAddr_length (ps : List pbe) (addrs : List Nat) :
    (setAddr ps addrs).length = min ps.length addrs.length := by
  simp [setAddr]

theorem setSwap_get : ∀ (ps : List pbe) (es : List swp_entry_t) (i : Nat)
    (h : i < (setSwap ps es).length) (h1 : i < ps.length) (h2 : i < es.length),
    (setSwap ps es).get ⟨i, h⟩
      = { ps.get ⟨i, h1⟩ with swap_address := es.get ⟨i, h2⟩ } := by
  intro ps
  induction ps with
  | nil => intro es i h h1 h2; simp at h1
  | cons p pr ih =>
    intro es i h h1 h2
    cases es with
    | nil => simp at h2
    | cons e er =>
      cases i with
      | zero => rfl
      | succ j =>
        have hb : j < (setSwap pr er).length := by
          rw [setSwap_length]
          simp at h1 h2
          omega
        have hg : (setSwap (p :: pr) (e :: er)).get ⟨j + 1, h⟩
            = (setSwap pr er).get ⟨j, hb⟩ := rfl
        rw [hg, ih er j hb (Nat.lt_of_succ_lt_succ h1) (Nat.lt_of_succ_lt_succ h2)]
        rfl

theorem setAddr_get : ∀ (ps : List pbe) (addrs : List Nat) (i : Nat)
    (h : i < (setAddr ps addrs).length) (h1 : i < ps.length) (h2 : i < addrs.length),
    (setAddr ps addrs).get ⟨i, h⟩
      = { ps.get ⟨i, h1⟩ with address := addrs.get ⟨i, h2⟩ } := by
  intro ps
  induction ps with
  | nil => intro addrs i h h1 h2; simp at h1
  | cons p pr ih =>
    intro addrs i h h1 h2
    cases addrs with
    | nil => simp at h2
    | cons a ar =>
      cases i with
      | zero => rfl
      | succ j =>
        have hb : j < (setAddr pr ar).length := by
          rw [setAddr_length]
          simp at h1 h2
          omega
        have hg : (setAddr (p :: pr) (a :: ar)).get ⟨j + 1, h⟩
            = (setAddr pr ar).get ⟨j, hb⟩ := rfl
        rw [hg, ih ar j hb (Nat.lt_of_succ_lt_succ h1) (Nat.lt_of_succ_lt_succ h2)]
        rfl

theorem setSwap_map_orig : ∀ (ps : List pbe) (es : List swp_entry_t),
    ps.length = es.length →
    (setSwap ps es).map pbe.orig_address = ps.map pbe.orig_address := by
  intro ps
  induction ps with
  | nil => intro es h; rfl
  | cons p pr ih =>
    intro es h
    cases es with
    | nil => simp at h
    | cons e er =>
      have hstep : setSwap (p :: pr) (e :: er)
          = { p with swap_address := e } :: setSwap pr er := rfl
      rw [hstep, List.map_cons, List.map_cons, ih er (by simpa using h)]

theorem setAddr_map_orig : ∀ (ps : List pbe) (addrs : List Nat),
    ps.length = addrs.length →
    (setAddr ps addrs).map pbe.orig_address = ps.map pbe.orig_address := by
  intro ps
  induction ps with
  | nil => intro addrs h; rfl
  | cons p pr ih =>
    intro addrs h
    cases addrs with
    | nil => simp at h
    | cons a ar =>
      have hstep : setAddr (p :: pr) (a :: ar)
          = { p with address := a } :: setAddr pr ar := rfl
      rw [hstep, List.map_cons, List.map_cons, ih ar (by simpa using h)]

theorem check_loop_all (pagedir : List pbe) (nr : Nat) :
    ∀ (ps : List pbe) (pages : List Nat) (mem : Mem),
      ps.length ≤ pages.length →
      (∀ a ∈ pages, does_collide_order pagedir nr a 0 = false) →
      check_loop pagedir nr ps pages mem
        = .ok (setAddr ps (pages.take ps.length), pages.drop ps.length,
            zeroPages (pages.take ps.length) mem) := by
  intro ps
  induction ps with
  | nil =>
    intro pages mem hlen hcol
    simp [check_loop, setAddr, zeroPages]
  | cons p pr ih =>
    intro pages mem hlen hcol
    cases pages with
    | nil => simp at hlen
    | cons a ar =>
      rw [check_loop]
      have halloc : allocNonColliding pagedir nr (a :: ar) mem
          = some (a, ar, mupdate mem a 0) := by
        rw [allocNonColliding, if_neg (by simp [hcol a (List.mem_cons_self _ _)])]
      rw [halloc]
      split
      · rename_i heq
        exact absurd heq (by simp)
      · rename_i a2 p1 m1 heq
        injection heq with g1
        injection g1 with g2 g3
        injection g3 with g4 g5
        subst g2 g4 g5
        rw [ih ar (mupdate mem a 0) (by simpa using hlen)
          (fun x hx => hcol x (List.mem_cons_of_mem _ hx))]
        split
        · rename_i e heq2
          exact absurd heq2 (by simp)
        · rename_i ps2 pg2 m2 heq2
          injection heq2 with k1
          injection k1 with k2 k3
          injection k3 with k4 k5
          subst k2 k4 k5
          rfl

theorem check_pagedir_all (dir : List pbe) (nr : Nat) (pages : List Nat) (mem : Mem)
    (hlen : dir.length = nr) (hple : nr ≤ pages.length)
    (hcol : ∀ a ∈ pages, does_collide_order dir nr a 0 = false) :
    check_pagedir dir nr pages mem
      = .ok (setAddr dir (pages.take nr), pages.drop nr,
          zeroPages (pages.take nr) mem) := by
  unfold check_pagedir
  have ht : dir.take nr = dir := List.take_of_length_le (by omega)
  have hd : dir.drop nr = [] := List.drop_eq_nil_of_le (by omega)
  rw [ht, check_loop_all dir nr dir pages mem (by omega) hcol, hlen, hd]
  split
  · rename_i e heq
    exact absurd heq (by simp)
  · rename_i pre pl mf heq
    injection heq with g1
    injection g1 with g2 g3
    injection g3 with g4 g5
    subst g2 g4 g5
    rw [List.append_nil]

theorem readData_notin (d : Disk) : ∀ (l : List pbe) (mem : Mem) (a : Nat),
    (∀ p ∈ l, a ≠ p.address) → readDataPages d l mem a = mem a := by
  intro l
  induction l with
  | nil => intro mem a h; rfl
  | cons p pr ih =>
    intro mem a h
    rw [readDataPages, ih _ a (fun q hq => h q (List.mem_cons_of_mem _ hq))]
    exact mupdate_other _ _ _ _ (h p (List.mem_cons_self _ _))

theorem readData_get (d : Disk) : ∀ (l : List pbe) (mem : Mem),
    (l.map pbe.address).Nodup →
    ∀ (i : Nat) (h : i < l.length),
      readDataPages d l mem ((l.get ⟨i, h⟩).address)
        = viewRaw (d (swp_offset (l.get ⟨i, h⟩).swap_address)) := by
  intro l
  induction l with
  | nil => intro mem hnd i h; simp at h
  | cons p pr ih =>
    intro mem hnd i h
    cases i with
    | zero =>
      rw [readDataPages]
      have hg : ((p :: pr).get ⟨0, h⟩) = p := rfl
      rw [hg, readData_notin d pr _ p.address ?hno]
      · exact mupdate_same _ _ _
      case hno =>
        intro q hq hcontra
        have : p.address ∈ pr.map pbe.address := by
          rw [hcontra]
          exact List.mem_map_of_mem _ hq
        exact (List.nodup_cons.mp (by simpa using hnd)).1 this
    | succ j =>
      have hg : ((p :: pr).get ⟨j + 1, h⟩)
          = pr.get ⟨j, Nat.lt_of_succ_lt_succ h⟩ := rfl
      rw [hg, readDataPages]
      exact ih _ (List.nodup_cons.mp (by simpa using hnd)).2 j (Nat.lt_of_succ_lt_succ h)

theorem copy_back_notin : ∀ (l : List pbe) (mem : Mem) (a : Nat),
    (∀ p ∈ l, a ≠ p.orig_address) → copy_back l mem a = mem a := by
  intro l
  induction l with
  | nil => intro mem a h; rfl
  | cons p pr ih =>
    intro mem a h
    rw [copy_back, ih _ a (fun q hq => h q (List.mem_cons_of_mem _ hq))]
    exact mupdate_other _ _ _ _ (h p (List.mem_cons_self _ _))

theorem copy_back_get : ∀ (l : List pbe) (mem : Mem),
    (l.map pbe.orig_address).Nodup →
    (∀ p ∈ l, ∀ q ∈ l, p.address ≠ q.orig_address) →
    ∀ (i : Nat) (h : i < l.length),
      copy_back l mem ((l.get ⟨i, h⟩).orig_address) = mem ((l.get ⟨i, h⟩).address) := by
  intro l
  induction l with
  | nil => intro mem hnd hdis i h; simp at h
  | cons p pr ih =>
    intro mem hnd hdis i h
    cases i with
    | zero =>
      have hg : ((p :: pr).get ⟨0, h⟩) = p := rfl
      rw [hg, copy_back]
      rw [copy_back_notin pr _ p.orig_address ?hno]
      · exact mupdate_same _ _ _
      case hno =>
        intro q hq hcontra
        have : p.orig_address ∈ pr.map pbe.orig_address := by
          rw [hcontra]
          exact List.mem_map_of_mem _ hq
        exact (List.nodup_cons.mp (by simpa using hnd)).1 this
    | succ j =>
      have hg : ((p :: pr).get ⟨j + 1, h⟩)
          = pr.get ⟨j, Nat.lt_of_succ_lt_succ h⟩ := rfl
      rw [hg, copy_back]
      rw [ih _ (List.nodup_cons.mp (by simpa using hnd)).2
        (fun x hx y hy => hdis x (List.mem_cons_of_mem _ hx) y (List.mem_cons_of_mem _ hy))
        j (Nat.lt_of_succ_lt_succ h)]
      exact mupdate_other _ _ _ _
        (fun hx => hdis (pr.get ⟨j, Nat.lt_of_succ_lt_succ h⟩)
          (List.mem_cons_of_mem _ (List.get_mem _ _ _))
          p (List.mem_cons_self _ _) hx)

theorem read_suspend_image_eq (sys : SysInfo) (d : Disk) (m : List Char)
    (lk : swp_entry_t) (sh : suspend_header) (hl : swp_entry_t)
    (rb : Nat) (rbl rpages : List Nat) (mem : Mem) (cs : List (List pbe))
    (hd0 : d 0 = DiskPage.swh m lk)
    (htag : m.take 2 = S1TAG ∨ m.take 2 = S2TAG)
    (hheader : d (swp_offset lk) = DiskPage.headerp sh hl)
    (hsan : sanity_check sys sh = 0)
    (hchain : readChain d (swp_offset hl * PAGE_SIZE) (SUSPEND_PD_PAGES sh.num_pbes)
      = .ok (cs, 0))
    (hflat : cs.flatten.length = sh.num_pbes)
    (hnorel : does_collide_order cs.flatten sh.num_pbes rb
      (get_bitmask_order (SUSPEND_PD_PAGES sh.num_pbes)) = false)
    (hlen : sh.num_pbes ≤ rpages.length)
    (hnocol : ∀ a ∈ rpages, does_collide_order cs.flatten sh.num_pbes a 0 = false) :
    read_suspend_image sys d (rb :: rbl) rpages mem
      = .ok ⟨sh.num_pbes, setAddr cs.flatten (rpages.take sh.num_pbes), rb,
          get_bitmask_order (SUSPEND_PD_PAGES sh.num_pbes),
          readDataPages d (setAddr cs.flatten (rpages.take sh.num_pbes))
            (zeroPages (rpages.take sh.num_pbes) mem),
          rbl, rpages.drop sh.num_pbes⟩ := by
  have hplain := committed_not_plain m htag
  simp only [read_suspend_image, hd0, viewMagic, viewLink]
  rw [if_neg hplain, if_pos htag, pos_div_page, hheader]
  simp only [viewHeader, viewLink]
  rw [if_pos hsan]
  split
  · rename_i e heq
    rw [hchain] at heq
    exact absurd heq (by simp)
  · rename_i pagesArr fin heq
    rw [hchain] at heq
    injection heq with g1
    injection g1 with g2 g3
    subst g2 g3
    rw [if_pos rfl]
    have hrel : relocate_pagedir cs.flatten sh.num_pbes rb
        (get_bitmask_order (SUSPEND_PD_PAGES sh.num_pbes)) rbl mem
        = .ok (rb, rbl, mem) := by
      unfold relocate_pagedir
      rw [if_pos hnorel]
    rw [hrel]
    split
    · rename_i e heq3
      exact absurd heq3 (by simp)
    · rename_i base2 bl2 mem2 heq3
      injection heq3 with k1
      injection k1 with k2 k3
      injection k3 with k4 k5
      subst k2 k4 k5
      rw [check_pagedir_all cs.flatten sh.num_pbes rpages mem hflat hlen hnocol]
      split
      · rename_i e heq4
        exact absurd heq4 (by simp)
      · rename_i dir2 pl2 mem3 heq4
        injection heq4 with q1
        injection q1 with q2 q3
        injection q3 with q4 q5
        subst q2 q4 q5
        have htake : (setAddr cs.flatten (rpages.take sh.num_pbes)).take sh.num_pbes
            = setAddr cs.flatten (rpages.take sh.num_pbes) := by
          refine List.take_of_length_le ?_
          rw [setAddr_length, hflat, List.length_take]
          omega
        rw [htake]

theorem list_get_map {α β : Type} (f : α → β) : ∀ (l : List α) (i : Nat)
    (h : i < (l.map f).length) (h2 : i < l.length),
    (l.map f).get ⟨i, h⟩ = f (l.get ⟨i, h2⟩) := by
  intro l
  induction l with
  | nil => intro i h h2; simp at h2
  | cons a t ih =>
    intro i h h2
    cases i with
    | zero => rfl
    | succ j =>
      have hb : j < (t.map f).length := by
        simp at h ⊢
        omega
      have hg : ((a :: t).map f).get ⟨j + 1, h⟩ = (t.map f).get ⟨j, hb⟩ := rfl
      rw [hg, ih j hb (Nat.lt_of_succ_lt_succ h2)]
      rfl

theorem setSwap_map_addr : ∀ (ps : List pbe) (es : List swp_entry_t),
    ps.length = es.length →
    (setSwap ps es).map pbe.address = ps.map pbe.address := by
  intro ps
  induction ps with
  | nil => intro es h; rfl
  | cons p pr ih =>
    intro es h
    cases es with
    | nil => simp at h
    | cons e er =>
      have hstep : setSwap (p :: pr) (e :: er)
          = { p with swap_address := e } :: setSwap pr er := rfl
      rw [hstep, List.map_cons, List.map_cons, ih er (by simpa using h)]

theorem setAddr_map_addr : ∀ (ps : List pbe) (addrs : List Nat),
    ps.length = addrs.length →
    (setAddr ps addrs).map pbe.address = addrs := by
  intro ps
  induction ps with
  | nil =>
    intro addrs h
    have : addrs = [] := List.eq_nil_of_length_eq_zero h.symm
    subst this
    rfl
  | cons p pr ih =>
    intro addrs h
    cases addrs with
    | nil => simp at h
    | cons a ar =>
      have hstep : setAddr (p :: pr) (a :: ar)
          = { p with address := a } :: setAddr pr ar := rfl
      rw [hstep, List.map_cons, ih ar (by simpa using h)]

theorem slots_nodup_facts (es1 es2 : List swp_entry_t) (eh : swp_entry_t)
    (hnd : ((es1 ++ es2 ++ [eh]).map swp_offset).Nodup) :
    (es1.map swp_offset).Nodup ∧ (es2.map swp_offset).Nodup ∧
    (∀ e ∈ es1, ∀ x ∈ es2, swp_offset e ≠ swp_offset x) ∧
    (∀ e ∈ es1, swp_offset e ≠ swp_offset eh) ∧
    (∀ e ∈ es2, swp_offset e ≠ swp_offset eh) := by
  rw [List.map_append, List.map_append] at hnd
  have h1 := List.nodup_append.mp hnd
  have h2 := List.nodup_append.mp h1.1
  refine ⟨h2.1, h2.2.1, ?_, ?_, ?_⟩
  · intro e he x hx hcontra
    exact h2.2.2 (List.mem_map_of_mem _ he) (hcontra ▸ List.mem_map_of_mem _ hx)
  · intro e he hcontra
    exact h1.2.2 (List.mem_append_left _ (List.mem_map_of_mem _ he))
      (by simp [hcontra])
  · intro e he hcontra
    exact h1.2.2 (List.mem_append_right _ (List.mem_map_of_mem _ he))
      (by simp [hcontra])

theorem final_disk_data (mem1 : Mem) (d0 : Disk) (dir1 : List pbe)
    (es1 es2 : List swp_entry_t) (eh : swp_entry_t) (cs : List (List pbe))
    (H M : DiskPage)
    (hnd1 : (es1.map swp_offset).Nodup)
    (hdis12 : ∀ e ∈ es1, ∀ x ∈ es2, swp_offset e ≠ swp_offset x)
    (hdis1h : ∀ e ∈ es1, swp_offset e ≠ swp_offset eh)
    (hnz1 : ∀ e ∈ es1, swp_offset e ≠ 0)
    (i : Nat) (h1 : i < dir1.length) (h2 : i < es1.length) :
    dupdate (dupdate (dirDisk (dataDisk mem1 d0 dir1 es1) cs es2 ⟨0⟩)
        (swp_offset eh) H) 0 M (swp_offset (es1.get ⟨i, h2⟩))
      = .raw (mem1 ((dir1.get ⟨i, h1⟩).address)) := by
  have hmem : es1.get ⟨i, h2⟩ ∈ es1 := List.get_mem _ _ _
  rw [dupdate_other _ _ _ _ (hnz1 _ hmem)]
  rw [dupdate_other _ _ _ _ (hdis1h _ hmem)]
  rw [dirDisk_notin _ _ _ _ _ (fun x hx => fun hcontra => hdis12 _ hmem x hx hcontra.symm)]
  exact dataDisk_get mem1 dir1 es1 d0 i h1 h2 hnd1

theorem chain_in_final_disk (d1 : Disk) (cs : List (List pbe))
    (es2 : List swp_entry_t) (eh : swp_entry_t) (H M : DiskPage)
    (hlen : cs.length = es2.length)
    (hnd2 : (es2.map swp_offset).Nodup)
    (hnz2 : ∀ e ∈ es2, swp_offset e ≠ 0)
    (hdis2h : ∀ e ∈ es2, swp_offset e ≠ swp_offset eh) :
    readChain (dupdate (dupdate (dirDisk d1 cs es2 ⟨0⟩) (swp_offset eh) H) 0 M)
      (swp_offset (lastD es2 ⟨0⟩) * PAGE_SIZE) cs.length = .ok (cs, 0) := by
  have hlaid := dirDisk_chainLaid cs es2 ⟨0⟩ d1 hlen hnd2
  have hlaid2 := chainLaid_preserve _
    (dupdate (dupdate (dirDisk d1 cs es2 ⟨0⟩) (swp_offset eh) H) 0 M)
    cs es2 ⟨0⟩ hlaid (fun e he => by
      rw [dupdate_other _ _ _ _ (hnz2 e he), dupdate_other _ _ _ _ (hdis2h e he)])
  have hrc := readChain_of_chainLaid _ cs es2 ⟨0⟩ hlaid2 hnz2
  have hz : swp_offset (⟨0⟩ : swp_entry_t) * PAGE_SIZE = 0 := by
    rw [swp_offset_zero, Nat.zero_mul]
  rw [hz] at hrc
  exact hrc

/-! ### Claim C1 -/

/-- Claim C1: for every machine memory model (any frame count, any known
content), taking the snapshot (`count_and_copy_data_pages` into a freshly
created directory), writing the image (`write_suspend_image`), reading it
back (`read_suspend_image`, which internally relocates with
`relocate_pagedir` and allocates collision-free buffers with
`check_pagedir`), and then copying each pbe's buffer back to its original
address reproduces the saved content at every original address.  The
hypotheses state the allocator/slot well-formedness the kernel environment
guarantees: fresh distinct buffer pages disjoint from saved frames, distinct
nonzero suspend-device swap slots, a normal-swap marker, a non-colliding
resume-side directory block and enough distinct non-colliding resume buffer
pages.  The final copy-back is the spec-modelled architecture restore. -/
theorem swsusp_roundtrip
    (cfg : MachineConfig) (sys : SysInfo) (mem0 rmem : Mem) (su : Nat → Nat)
    (root_swap : Nat) (bufs : List Nat) (b0 : Nat) (bl0 : List Nat)
    (es1 es2 : List swp_entry_t) (eh : swp_entry_t) (tail : List swp_entry_t)
    (d0 : Disk) (m0 : List Char) (l0 : swp_entry_t)
    (rb : Nat) (rbl rpages : List Nat) (n : Nat)
    (co : CreateOut) (dir1 : List pbe) (mem1 : Mem) (w : WriteOut) (r : ReadOut)
    (hwfcfg : cfgWF cfg)
    (hmaxpfn : cfg.max_pfn = sys.num_physpages)
    (hn : (ccWalk cfg 0 cfg.max_pfn).length = n)
    (hbufs_len : bufs.length = n)
    (hbufs_nd : bufs.Nodup)
    (hbufs_dis : ∀ a ∈ bufs, ∀ pf ∈ ccWalk cfg 0 cfg.max_pfn, a ≠ ADDRESS pf)
    (hes1 : es1.length = n)
    (hes2 : es2.length = SUSPEND_PD_PAGES n)
    (hslotwf : ∀ e ∈ es1 ++ es2 ++ [eh],
      swp_offset e ≠ 0 ∧ su (swp_type e) = SWAPFILE_SUSPEND)
    (hslotnd : ((es1 ++ es2 ++ [eh]).map swp_offset).Nodup)
    (hroot : root_swap ≠ 0xFFFF)
    (hd00 : d0 0 = DiskPage.swh m0 l0)
    (hm0 : m0.take 10 = SWAP_SPACE ∨ m0.take 10 = SWAPSPACE2)
    (hrb : ∀ pf ∈ ccWalk cfg 0 cfg.max_pfn,
      ¬(rb ≤ ADDRESS pf ∧
        ADDRESS pf < rb + PAGE_SIZE * 2 ^ get_bitmask_order (SUSPEND_PD_PAGES n)))
    (hrp_len : n ≤ rpages.length)
    (hrp_nd : (rpages.take n).Nodup)
    (hrp_dis : ∀ a ∈ rpages, ∀ pf ∈ ccWalk cfg 0 cfg.max_pfn,
      ¬(a ≤ ADDRESS pf ∧ ADDRESS pf < a + PAGE_SIZE))
    (hco : create_suspend_pagedir n (b0 :: bl0) bufs mem0 = some co)
    (hcopy : count_and_copy_data_pages cfg (some co.dir) co.mem = (n, dir1, mem1))
    (hw : write_suspend_image sys su root_swap co.base mem1 dir1 n
      (es1 ++ es2 ++ [eh] ++ tail) d0 = .ok w)
    (hr : read_suspend_image sys w.disk (rb :: rbl) rpages rmem = .ok r) :
    r.nr = n ∧
    ∀ pf ∈ ccWalk cfg 0 cfg.max_pfn,
      copy_back (r.dir.take r.nr) r.mem (ADDRESS pf) = mem0 (ADDRESS pf) := by
  -- resolve the create step
  have hbt : bufs.take n = bufs := List.take_of_length_le (by omega)
  have hco2 := create_suspend_pagedir_some n b0 bl0 bufs mem0 (by omega)
  rw [hbt] at hco2
  rw [hco2] at hco
  injection hco with hcoE
  subst hcoE
  simp only [] at hcopy hw
  -- resolve the copy pass
  have hcopy2 : count_and_copy_data_pages cfg
      (some (bufs.map (fun a => (⟨a, 0, ⟨0⟩⟩ : pbe)))) (zeroPages bufs mem0)
      = ((ccWalk cfg 0 cfg.max_pfn).length,
          (ccCopy (zeroPages bufs mem0) (ccWalk cfg 0 cfg.max_pfn)
            (bufs.map (fun a => (⟨a, 0, ⟨0⟩⟩ : pbe)))).1,
          (ccCopy (zeroPages bufs mem0) (ccWalk cfg 0 cfg.max_pfn)
            (bufs.map (fun a => (⟨a, 0, ⟨0⟩⟩ : pbe)))).2) := rfl
  rw [hcopy2, hn] at hcopy
  injection hcopy with hc1 hc2
  injection hc2 with hc3 hc4
  subst hc3 hc4
  -- abbreviate
  have hlenD0 : (bufs.map (fun a => (⟨a, 0, ⟨0⟩⟩ : pbe))).length = n := by
    rw [List.length_map, hbufs_len]
  have hlen_dir1 : (ccCopy (zeroPages bufs mem0) (ccWalk cfg 0 cfg.max_pfn)
      (bufs.map (fun a => (⟨a, 0, ⟨0⟩⟩ : pbe)))).1.length = n := by
    rw [ccCopy_length, hn, hlenD0]
    omega
  have ht1 : (ccCopy (zeroPages bufs mem0) (ccWalk cfg 0 cfg.max_pfn)
      (bufs.map (fun a => (⟨a, 0, ⟨0⟩⟩ : pbe)))).1.take n
      = (ccCopy (zeroPages bufs mem0) (ccWalk cfg 0 cfg.max_pfn)
          (bufs.map (fun a => (⟨a, 0, ⟨0⟩⟩ : pbe)))).1 :=
    List.take_of_length_le (by omega)
  -- resolve the write step
  have hn1 : ((ccCopy (zeroPages bufs mem0) (ccWalk cfg 0 cfg.max_pfn)
      (bufs.map (fun a => (⟨a, 0, ⟨0⟩⟩ : pbe)))).1.take n).length = es1.length := by
    rw [ht1, hlen_dir1, hes1]
  have hw2 := write_suspend_image_eq sys su root_swap b0
    (ccCopy (zeroPages bufs mem0) (ccWalk cfg 0 cfg.max_pfn)
      (bufs.map (fun a => (⟨a, 0, ⟨0⟩⟩ : pbe)))).2
    (ccCopy (zeroPages bufs mem0) (ccWalk cfg 0 cfg.max_pfn)
      (bufs.map (fun a => (⟨a, 0, ⟨0⟩⟩ : pbe)))).1
    n es1 es2 eh tail d0 m0 l0 hn1 hes2 hslotwf hroot hd00 hm0
  rw [ht1] at hw2
  rw [hw2] at hw
  injection hw with hwE
  subst hwE
  simp only [] at hr
  -- facts for the read step
  obtain ⟨hnd1, hnd2, hdis12, hdis1h, hdis2h⟩ := slots_nodup_facts es1 es2 eh hslotnd
  have hnz1 : ∀ e ∈ es1, swp_offset e ≠ 0 :=
    fun e he =>
      (hslotwf e (List.mem_append_left _ (List.mem_append_left _ he))).1
  have hnz2 : ∀ e ∈ es2, swp_offset e ≠ 0 :=
    fun e he =>
      (hslotwf e (List.mem_append_left _ (List.mem_append_right _ he))).1
  have hnzh : swp_offset eh ≠ 0 :=
    (hslotwf eh (List.mem_append_right _ (by simp))).1
  have hlen_dir2 : (setSwap (ccCopy (zeroPages bufs mem0) (ccWalk cfg 0 cfg.max_pfn)
      (bufs.map (fun a => (⟨a, 0, ⟨0⟩⟩ : pbe)))).1 es1).length = n := by
    rw [setSwap_length, hlen_dir1, hes1]
    omega
  have hflat2 : (chunkPages (SUSPEND_PD_PAGES n)
      (setSwap (ccCopy (zeroPages bufs mem0) (ccWalk cfg 0 cfg.max_pfn)
        (bufs.map (fun a => (⟨a, 0, ⟨0⟩⟩ : pbe)))).1 es1)).flatten
      = setSwap (ccCopy (zeroPages bufs mem0) (ccWalk cfg 0 cfg.max_pfn)
          (bufs.map (fun a => (⟨a, 0, ⟨0⟩⟩ : pbe)))).1 es1 := by
    rw [chunkPages_flatten]
    refine List.take_of_length_le ?_
    rw [hlen_dir2]
    have hspd : SUSPEND_PD_PAGES n * PBES_PER_PAGE = (n / 128 + 1) * 128 := rfl
    rw [hspd]
    omega
  have hmap_orig1 : (ccCopy (zeroPages bufs mem0) (ccWalk cfg 0 cfg.max_pfn)
      (bufs.map (fun a => (⟨a, 0, ⟨0⟩⟩ : pbe)))).1.map pbe.orig_address
      = (ccWalk cfg 0 cfg.max_pfn).map ADDRESS := by
    rw [ccCopy_map_orig]
    rw [hlenD0, ← hn]
    rw [List.take_of_length_le (le_refl _)]
  have hmap_orig2 : (setSwap (ccCopy (zeroPages bufs mem0) (ccWalk cfg 0 cfg.max_pfn)
      (bufs.map (fun a => (⟨a, 0, ⟨0⟩⟩ : pbe)))).1 es1).map pbe.orig_address
      = (ccWalk cfg 0 cfg.max_pfn).map ADDRESS := by
    rw [setSwap_map_orig _ _ (by rw [hlen_dir1, hes1]), hmap_orig1]
  have ht2 : (setSwap (ccCopy (zeroPages bufs mem0) (ccWalk cfg 0 cfg.max_pfn)
      (bufs.map (fun a => (⟨a, 0, ⟨0⟩⟩ : pbe)))).1 es1).take n
      = setSwap (ccCopy (zeroPages bufs mem0) (ccWalk cfg 0 cfg.max_pfn)
          (bufs.map (fun a => (⟨a, 0, ⟨0⟩⟩ : pbe)))).1 es1 :=
    List.take_of_length_le (by omega)
  have hnorelf : does_collide_order
      (setSwap (ccCopy (zeroPages bufs mem0) (ccWalk cfg 0 cfg.max_pfn)
        (bufs.map (fun a => (⟨a, 0, ⟨0⟩⟩ : pbe)))).1 es1) n rb
      (get_bitmask_order (SUSPEND_PD_PAGES n)) = false := by
    apply does_collide_order_false_of
    intro x hx
    rw [ht2, hmap_orig2] at hx
    rcases List.mem_map.mp hx with ⟨pf, hpf, rfl⟩
    exact hrb pf hpf
  have hnocolf : ∀ a ∈ rpages, does_collide_order
      (setSwap (ccCopy (zeroPages bufs mem0) (ccWalk cfg 0 cfg.max_pfn)
        (bufs.map (fun a => (⟨a, 0, ⟨0⟩⟩ : pbe)))).1 es1) n a 0 = false := by
    intro a ha
    apply does_collide_order_false_of
    intro x hx
    rw [ht2, hmap_orig2] at hx
    rcases List.mem_map.mp hx with ⟨pf, hpf, rfl⟩
    have := hrp_dis a ha pf hpf
    simpa using this
  have hd0f : (dupdate
      (dupdate
        (dirDisk (dataDisk (ccCopy (zeroPages bufs mem0) (ccWalk cfg 0 cfg.max_pfn)
            (bufs.map (fun a => (⟨a, 0, ⟨0⟩⟩ : pbe)))).2 d0
            (ccCopy (zeroPages bufs mem0) (ccWalk cfg 0 cfg.max_pfn)
              (bufs.map (fun a => (⟨a, 0, ⟨0⟩⟩ : pbe)))).1 es1)
          (chunkPages (SUSPEND_PD_PAGES n)
            (setSwap (ccCopy (zeroPages bufs mem0) (ccWalk cfg 0 cfg.max_pfn)
              (bufs.map (fun a => (⟨a, 0, ⟨0⟩⟩ : pbe)))).1 es1)) es2 ⟨0⟩)
        (swp_offset eh)
        (.headerp (fill_suspend_header sys b0 n) (lastD es2 ⟨0⟩)))
      0 (.swh (if m0.take 10 = SWAP_SPACE then S1SUSP else S2SUSP) eh)) 0
      = DiskPage.swh (if m0.take 10 = SWAP_SPACE then S1SUSP else S2SUSP) eh :=
    dupdate_same _ _ _
  have htagf : (if m0.take 10 = SWAP_SPACE then S1SUSP else S2SUSP).take 2 = S1TAG ∨
      (if m0.take 10 = SWAP_SPACE then S1SUSP else S2SUSP).take 2 = S2TAG := by
    by_cases hc : m0.take 10 = SWAP_SPACE
    · rw [if_pos hc]
      exact Or.inl (by decide)
    · rw [if_neg hc]
      exact Or.inr (by decide)
  have hchainf := chain_in_final_disk
    (dataDisk (ccCopy (zeroPages bufs mem0) (ccWalk cfg 0 cfg.max_pfn)
        (bufs.map (fun a => (⟨a, 0, ⟨0⟩⟩ : pbe)))).2 d0
      (ccCopy (zeroPages bufs mem0) (ccWalk cfg 0 cfg.max_pfn)
        (bufs.map (fun a => (⟨a, 0, ⟨0⟩⟩ : pbe)))).1 es1)
    (chunkPages (SUSPEND_PD_PAGES n)
      (setSwap (ccCopy (zeroPages bufs mem0) (ccWalk cfg 0 cfg.max_pfn)
        (bufs.map (fun a => (⟨a, 0, ⟨0⟩⟩ : pbe)))).1 es1))
    es2 eh (.headerp (fill_suspend_header sys b0 n) (lastD es2 ⟨0⟩))
    (.swh (if m0.take 10 = SWAP_SPACE then S1SUSP else S2SUSP) eh)
    (by rw [chunkPages_length, hes2]) hnd2 hnz2 hdis2h
  rw [chunkPages_length] at hchainf
  have hr2 := read_suspend_image_eq sys
    (dupdate
      (dupdate
        (dirDisk (dataDisk (ccCopy (zeroPages bufs mem0) (ccWalk cfg 0 cfg.max_pfn)
            (bufs.map (fun a => (⟨a, 0, ⟨0⟩⟩ : pbe)))).2 d0
            (ccCopy (zeroPages bufs mem0) (ccWalk cfg 0 cfg.max_pfn)
              (bufs.map (fun a => (⟨a, 0, ⟨0⟩⟩ : pbe)))).1 es1)
          (chunkPages (SUSPEND_PD_PAGES n)
            (setSwap (ccCopy (zeroPages bufs mem0) (ccWalk cfg 0 cfg.max_pfn)
              (bufs.map (fun a => (⟨a, 0, ⟨0⟩⟩ : pbe)))).1 es1)) es2 ⟨0⟩)
        (swp_offset eh)
        (.headerp (fill_suspend_header sys b0 n) (lastD es2 ⟨0⟩)))
      0 (.swh (if m0.take 10 = SWAP_SPACE then S1SUSP else S2SUSP) eh))
    (if m0.take 10 = SWAP_SPACE then S1SUSP else S2SUSP) eh
    (fill_suspend_header sys b0 n) (lastD es2 ⟨0⟩) rb rbl rpages rmem
    (chunkPages (SUSPEND_PD_PAGES n)
      (setSwap (ccCopy (zeroPages bufs mem0) (ccWalk cfg 0 cfg.max_pfn)
        (bufs.map (fun a => (⟨a, 0, ⟨0⟩⟩ : pbe)))).1 es1))
    hd0f htagf
    (by
      rw [dupdate_other _ _ _ _ hnzh]
      exact dupdate_same _ _ _)
    (sanity_check_fill sys b0 n) hchainf
    (by rw [hflat2, hlen_dir2]; rfl)
    (by rw [hflat2]; exact hnorelf)
    hrp_len
    (by
      intro a ha
      rw [hflat2]
      exact hnocolf a ha)
  rw [hflat2] at hr2
  rw [hr2] at hr
  injection hr with hrE
  subst hrE
  simp only []
  have hNf : (fill_suspend_header sys b0 n).num_pbes = n := rfl
  rw [hNf]
  refine ⟨rfl, ?_⟩
  -- length and shape facts about the final (relocated, re-addressed) directory
  have hlen_eq2 : (setSwap (ccCopy (zeroPages bufs mem0) (ccWalk cfg 0 cfg.max_pfn)
      (bufs.map (fun a => (⟨a, 0, ⟨0⟩⟩ : pbe)))).1 es1).length
      = (rpages.take n).length := by
    rw [hlen_dir2, List.length_take]
    omega
  have hlen_dir3 : (setAddr (setSwap (ccCopy (zeroPages bufs mem0)
      (ccWalk cfg 0 cfg.max_pfn)
      (bufs.map (fun a => (⟨a, 0, ⟨0⟩⟩ : pbe)))).1 es1) (rpages.take n)).length = n := by
    rw [setAddr_length, hlen_dir2, List.length_take]
    omega
  have ht3 : (setAddr (setSwap (ccCopy (zeroPages bufs mem0)
      (ccWalk cfg 0 cfg.max_pfn)
      (bufs.map (fun a => (⟨a, 0, ⟨0⟩⟩ : pbe)))).1 es1) (rpages.take n)).take n
      = setAddr (setSwap (ccCopy (zeroPages bufs mem0) (ccWalk cfg 0 cfg.max_pfn)
          (bufs.map (fun a => (⟨a, 0, ⟨0⟩⟩ : pbe)))).1 es1) (rpages.take n) :=
    List.take_of_length_le (by omega)
  have hmap_orig3 : (setAddr (setSwap (ccCopy (zeroPages bufs mem0)
      (ccWalk cfg 0 cfg.max_pfn)
      (bufs.map (fun a => (⟨a, 0, ⟨0⟩⟩ : pbe)))).1 es1) (rpages.take n)).map
        pbe.orig_address
      = (ccWalk cfg 0 cfg.max_pfn).map ADDRESS := by
    rw [setAddr_map_orig _ _ hlen_eq2, hmap_orig2]
  have hnd3 : ((setAddr (setSwap (ccCopy (zeroPages bufs mem0)
      (ccWalk cfg 0 cfg.max_pfn)
      (bufs.map (fun a => (⟨a, 0, ⟨0⟩⟩ : pbe)))).1 es1) (rpages.take n)).map
        pbe.orig_address).Nodup := by
    rw [hmap_orig3]
    exact ccWalk_addr_nodup cfg cfg.max_pfn 0
  have hmap_addr3 : (setAddr (setSwap (ccCopy (zeroPages bufs mem0)
      (ccWalk cfg 0 cfg.max_pfn)
      (bufs.map (fun a => (⟨a, 0, ⟨0⟩⟩ : pbe)))).1 es1) (rpages.take n)).map
        pbe.address
      = rpages.take n :=
    setAddr_map_addr _ _ hlen_eq2
  have hnd_addr3 : ((setAddr (setSwap (ccCopy (zeroPages bufs mem0)
      (ccWalk cfg 0 cfg.max_pfn)
      (bufs.map (fun a => (⟨a, 0, ⟨0⟩⟩ : pbe)))).1 es1) (rpages.take n)).map
        pbe.address).Nodup := by
    rw [hmap_addr3]
    exact hrp_nd
  have hdis3 : ∀ p ∈ setAddr (setSwap (ccCopy (zeroPages bufs mem0)
      (ccWalk cfg 0 cfg.max_pfn)
      (bufs.map (fun a => (⟨a, 0, ⟨0⟩⟩ : pbe)))).1 es1) (rpages.take n),
      ∀ q ∈ setAddr (setSwap (ccCopy (zeroPages bufs mem0)
        (ccWalk cfg 0 cfg.max_pfn)
        (bufs.map (fun a => (⟨a, 0, ⟨0⟩⟩ : pbe)))).1 es1) (rpages.take n),
      p.address ≠ q.orig_address := by
    intro p hp q hq hcontra
    have hpa : p.address ∈ rpages := by
      have hpt : p.address ∈ rpages.take n := by
        rw [← hmap_addr3]
        exact List.mem_map_of_mem _ hp
      exact List.mem_of_mem_take hpt
    have hqo : q.orig_address ∈ (ccWalk cfg 0 cfg.max_pfn).map ADDRESS := by
      rw [← hmap_orig3]
      exact List.mem_map_of_mem _ hq
    rcases List.mem_map.mp hqo with ⟨x, hx, hxe⟩
    have hE : p.address = ADDRESS x := hcontra.trans hxe.symm
    refine hrp_dis p.address hpa x hx ⟨le_of_eq hE, ?_⟩
    rw [← hE]
    exact Nat.lt_add_of_pos_right (by decide)
  intro pf hpf
  rcases List.mem_iff_get.mp hpf with ⟨⟨i, hiW⟩, hpfget⟩
  subst hpfget
  rw [ht3]
  -- index bounds at position i
  have hi_n : i < n := by
    rw [← hn]
    exact hiW
  have h3 : i < (setAddr (setSwap (ccCopy (zeroPages bufs mem0)
      (ccWalk cfg 0 cfg.max_pfn)
      (bufs.map (fun a => (⟨a, 0, ⟨0⟩⟩ : pbe)))).1 es1) (rpages.take n)).length := by
    rw [hlen_dir3]
    exact hi_n
  have h2 : i < (setSwap (ccCopy (zeroPages bufs mem0) (ccWalk cfg 0 cfg.max_pfn)
      (bufs.map (fun a => (⟨a, 0, ⟨0⟩⟩ : pbe)))).1 es1).length := by
    rw [hlen_dir2]
    exact hi_n
  have h1 : i < (ccCopy (zeroPages bufs mem0) (ccWalk cfg 0 cfg.max_pfn)
      (bufs.map (fun a => (⟨a, 0, ⟨0⟩⟩ : pbe)))).1.length := by
    rw [hlen_dir1]
    exact hi_n
  have he1i : i < es1.length := by
    rw [hes1]
    exact hi_n
  have hrp_i : i < (rpages.take n).length := by
    rw [List.length_take]
    omega
  have hD0i : i < (bufs.map (fun a => (⟨a, 0, ⟨0⟩⟩ : pbe))).length := by
    rw [hlenD0]
    exact hi_n
  -- per-index descriptions of the three directory layers
  have hg3 := setAddr_get (setSwap (ccCopy (zeroPages bufs mem0)
    (ccWalk cfg 0 cfg.max_pfn)
    (bufs.map (fun a => (⟨a, 0, ⟨0⟩⟩ : pbe)))).1 es1) (rpages.take n) i h3 h2 hrp_i
  have hg2 := setSwap_get (ccCopy (zeroPages bufs mem0) (ccWalk cfg 0 cfg.max_pfn)
    (bufs.map (fun a => (⟨a, 0, ⟨0⟩⟩ : pbe)))).1 es1 i h2 h1 he1i
  have hg1 := ccCopy_get (ccWalk cfg 0 cfg.max_pfn)
    (bufs.map (fun a => (⟨a, 0, ⟨0⟩⟩ : pbe))) (zeroPages bufs mem0) i hiW hD0i h1
  have horig : ((setAddr (setSwap (ccCopy (zeroPages bufs mem0)
      (ccWalk cfg 0 cfg.max_pfn)
      (bufs.map (fun a => (⟨a, 0, ⟨0⟩⟩ : pbe)))).1 es1) (rpages.take n)).get
        ⟨i, h3⟩).orig_address
      = ADDRESS ((ccWalk cfg 0 cfg.max_pfn).get ⟨i, hiW⟩) := by
    rw [hg3, hg2, hg1]
  have haddr3 : ((setAddr (setSwap (ccCopy (zeroPages bufs mem0)
      (ccWalk cfg 0 cfg.max_pfn)
      (bufs.map (fun a => (⟨a, 0, ⟨0⟩⟩ : pbe)))).1 es1) (rpages.take n)).get
        ⟨i, h3⟩).address
      = (rpages.take n).get ⟨i, hrp_i⟩ := by
    rw [hg3]
  have hswap3 : ((setAddr (setSwap (ccCopy (zeroPages bufs mem0)
      (ccWalk cfg 0 cfg.max_pfn)
      (bufs.map (fun a => (⟨a, 0, ⟨0⟩⟩ : pbe)))).1 es1) (rpages.take n)).get
        ⟨i, h3⟩).swap_address
      = es1.get ⟨i, he1i⟩ := by
    rw [hg3, hg2]
  have haddr1 : ((ccCopy (zeroPages bufs mem0) (ccWalk cfg 0 cfg.max_pfn)
      (bufs.map (fun a => (⟨a, 0, ⟨0⟩⟩ : pbe)))).1.get ⟨i, h1⟩).address
      = ((bufs.map (fun a => (⟨a, 0, ⟨0⟩⟩ : pbe))).get ⟨i, hD0i⟩).address := by
    rw [hg1]
  -- the snapshot buffer pages are pairwise distinct and miss every saved frame
  have hmapD0 : (bufs.map (fun a => (⟨a, 0, ⟨0⟩⟩ : pbe))).map pbe.address = bufs := by
    rw [List.map_map]
    have hfc : (pbe.address ∘ fun a => (⟨a, 0, ⟨0⟩⟩ : pbe)) = id := rfl
    rw [hfc, List.map_id]
  have hndD0 : ((bufs.map (fun a => (⟨a, 0, ⟨0⟩⟩ : pbe))).map pbe.address).Nodup := by
    rw [hmapD0]
    exact hbufs_nd
  have hdisD0 : ∀ p ∈ bufs.map (fun a => (⟨a, 0, ⟨0⟩⟩ : pbe)),
      ∀ x ∈ ccWalk cfg 0 cfg.max_pfn, p.address ≠ ADDRESS x := by
    intro p hp x hx
    rcases List.mem_map.mp hp with ⟨a, ha, rfl⟩
    exact hbufs_dis a ha x hx
  have hnotin : ADDRESS ((ccWalk cfg 0 cfg.max_pfn).get ⟨i, hiW⟩) ∉ bufs :=
    fun hmem => hbufs_dis _ hmem ((ccWalk cfg 0 cfg.max_pfn).get ⟨i, hiW⟩)
      (List.get_mem _ _ _) rfl
  -- chain the four layers: copy-back, buffer read, on-disk data slot, snapshot copy
  conv_lhs => rw [← horig]
  rw [copy_back_get _ _ hnd3 hdis3 i h3]
  rw [readData_get _ _ _ hnd_addr3 i h3]
  rw [hswap3]
  rw [final_disk_data _ _ _ _ _ _ _ _ _ hnd1 hdis12 hdis1h hnz1 i h1 he1i]
  simp only [viewRaw]
  rw [haddr1, ccCopy_mem_get _ _ _ hndD0 hdisD0 i hiW hD0i]
  exact zeroPages_notin bufs mem0 _ hnotin

/-- A concrete two-frame machine run end to end: snapshot, write, read back,
copy back; every saved frame's content is restored. -/
theorem swsusp_roundtrip_witness :
    ∃ (co : CreateOut) (dir1 : List pbe) (mem1 : Mem) (w : WriteOut) (r : ReadOut),
      create_suspend_pagedir 2 [81920] [40960, 45056] (fun a => a + 7) = some co ∧
      count_and_copy_data_pages ⟨2, fun _ => ⟨false, false⟩, fun _ => 0, 0, 0⟩
        (some co.dir) co.mem = (2, dir1, mem1) ∧
      write_suspend_image ⟨132096, 2, ("i686").toList, ("#1 SMP").toList, 1, 4096⟩
        (fun t => if t = 1 then 1 else 0) 1 co.base mem1 dir1 2
        ([swp_entry 1 1, swp_entry 1 2] ++ [swp_entry 1 3] ++ [swp_entry 1 4] ++ [])
        (fun _ => DiskPage.swh SWAP_SPACE ⟨0⟩) = .ok w ∧
      read_suspend_image ⟨132096, 2, ("i686").toList, ("#1 SMP").toList, 1, 4096⟩
        w.disk [200704] [204800, 208896] (fun _ => 0) = .ok r ∧
      r.nr = 2 ∧
      ∀ pf ∈ ccWalk ⟨2, fun _ => ⟨false, false⟩, fun _ => 0, 0, 0⟩ 0 2,
        copy_back (r.dir.take r.nr) r.mem (ADDRESS pf) = ADDRESS pf + 7 :=
  ⟨_, _, _, _, _, rfl, rfl, rfl, rfl,
    swsusp_roundtrip
      ⟨2, fun _ => ⟨false, false⟩, fun _ => 0, 0, 0⟩
      ⟨132096, 2, ("i686").toList, ("#1 SMP").toList, 1, 4096⟩
      (fun a => a + 7) (fun _ => 0)
      (fun t => if t = 1 then 1 else 0) 1
      [40960, 45056] 81920 []
      [swp_entry 1 1, swp_entry 1 2] [swp_entry 1 3] (swp_entry 1 4) []
      (fun _ => DiskPage.swh SWAP_SPACE ⟨0⟩) SWAP_SPACE ⟨0⟩
      200704 [] [204800, 208896] 2
      _ _ _ _ _
      (fun _ _ h => Bool.noConfusion h)
      (by decide) (by decide) (by decide) (by decide) (by decide)
      (by decide) (by decide) (by decide) (by decide) (by decide)
      rfl (Or.inl (by decide)) (by decide) (by decide) (by decide) (by decide)
      rfl rfl rfl rfl⟩

end Swsusp
